import Mathlib

/-!
Shallow embedding of the todo-list app's Behavioral Analytics Engine
(`src/todo-app/js/timeUtils.js`, `src/todo-app/js/metricsCalculator.js`,
and the `AnalyticsEngine` module) together with theorems settling the
frozen specification claims.

Modelling conventions:
* A JavaScript `Date` is its millisecond timestamp, an `Int`.  The local
  time zone is taken to be UTC (no DST), so `setDate(getDate() - i)`
  coincides with subtracting `i * 86400000` milliseconds.
* JavaScript numbers are modelled as exact rationals (`ℚ`) for code paths
  whose values stay exact (small integers, guarded divisions), and as
  `JSNum` (`ℚ` plus a NaN element) for `analyzeTaskPatterns`, where an
  unguarded `0 / 0` can occur.
* `Math.round x` is `⌊x + 1/2⌋` (JavaScript rounds half toward +∞).
* Fallible code (`throw`) is embedded with `Except String`.
-/

/-! ## Time utilities (`timeUtils.js`) -/

/-- Milliseconds in a day. -/
def dayMs : Int := 86400000

/-- Milliseconds in an hour. -/
def hourMs : Int := 3600000

/-- `TimeUtils.getStartOfDay`: truncate a timestamp to 00:00:00.000 of its
(UTC-modelled local) calendar day. -/
def getStartOfDay (t : Int) : Int := dayMs * (t.fdiv dayMs)

/-- `TimeUtils.getEndOfDay`: 23:59:59.999 of the timestamp's calendar day. -/
def getEndOfDay (t : Int) : Int := getStartOfDay t + dayMs - 1

/-- `TimeUtils.getDaysDifference`: `Math.ceil(|d2 - d1| / 86400000)`. -/
def getDaysDifference (d1 d2 : Int) : Nat :=
  ((d2 - d1).natAbs + 86399999) / 86400000

/-- `d.getHours()` in the UTC-modelled local time zone. -/
def getHours (t : Int) : Int := (t.fdiv hourMs) % 24

/-- `d.getDay()`: day of week, 0 = Sunday.  Day 0 of the epoch
(1970-01-01) was a Thursday. -/
def getDayOfWeek (t : Int) : Int := (t.fdiv dayMs + 4) % 7

/-- `TimeUtils.getStartOfWeek`: Monday 00:00:00 of the timestamp's week
(`diff = getDate() - dayOfWeek + (dayOfWeek === 0 ? -6 : 1)`). -/
def getStartOfWeek (t : Int) : Int :=
  let dow := getDayOfWeek t
  getStartOfDay (t - (if dow = 0 then 6 else dow - 1) * dayMs)

/-- `TimeUtils.getEndOfWeek`: Sunday 23:59:59.999 of the timestamp's week. -/
def getEndOfWeek (t : Int) : Int :=
  let dow := getDayOfWeek t
  getEndOfDay (t + (if dow = 0 then 0 else 7 - dow) * dayMs)

/-- Civil-calendar conversion: epoch day number to `(year, month, day)`
(proleptic Gregorian; Hinnant's `civil_from_days`). -/
def civilFromDays (z : Int) : Int × Nat × Nat :=
  let z' := z + 719468
  let era : Int := z'.fdiv 146097
  let doe : Nat := (z' - era * 146097).toNat
  let yoe : Nat := (doe - doe / 1460 + doe / 36524 - doe / 146096) / 365
  let doy : Nat := doe - (365 * yoe + yoe / 4 - yoe / 100)
  let mp : Nat := (5 * doy + 2) / 153
  let d : Nat := doy - (153 * mp + 2) / 5 + 1
  let m : Nat := if mp < 10 then mp + 3 else mp - 9
  (era * 400 + yoe + (if m ≤ 2 then 1 else 0), m, d)

/-- Inverse civil-calendar conversion (Hinnant's `days_from_civil`). -/
def daysFromCivil (y : Int) (m d : Nat) : Int :=
  let y' := y - (if m ≤ 2 then 1 else 0)
  let era : Int := y'.fdiv 400
  let yoe : Nat := (y' - era * 400).toNat
  let mp : Nat := if 2 < m then m - 3 else m + 9
  let doy : Nat := (153 * mp + 2) / 5 + d - 1
  let doe : Nat := yoe * 365 + yoe / 4 - yoe / 100 + doy
  era * 146097 + doe - 719468

/-- Number of days in a month of a given year. -/
def daysInMonth (y : Int) (m : Nat) : Nat :=
  if m = 2 then (if y % 4 = 0 ∧ (y % 100 ≠ 0 ∨ y % 400 = 0) then 29 else 28)
  else if m = 4 ∨ m = 6 ∨ m = 9 ∨ m = 11 then 30
  else 31

/-- Left-pad the decimal representation of `n` with zeros to width 2
(`String(n).padStart(2, '0')`). -/
def pad2 (n : Nat) : String :=
  if n < 10 then "0" ++ toString n else toString n

/-- Left-pad to width 3 (for the milliseconds of `toISOString`). -/
def pad3 (n : Nat) : String :=
  if n < 10 then "00" ++ toString n
  else if n < 100 then "0" ++ toString n
  else toString n

/-- Left-pad to width 4 (for the year of `toISOString`). -/
def pad4 (n : Nat) : String :=
  if n < 10 then "000" ++ toString n
  else if n < 100 then "00" ++ toString n
  else if n < 1000 then "0" ++ toString n
  else toString n

/-- `Date.prototype.toISOString` for a non-negative, pre-year-10000
timestamp: `YYYY-MM-DDTHH:mm:ss.sssZ`. -/
def toISOString (t : Int) : String :=
  let z := t.fdiv dayMs
  let rem : Nat := (t - z * dayMs).toNat
  let ymd := civilFromDays z
  pad4 ymd.1.toNat ++ "-" ++ pad2 ymd.2.1 ++ "-" ++ pad2 ymd.2.2 ++ "T" ++
    pad2 (rem / 3600000) ++ ":" ++ pad2 (rem / 60000 % 60) ++ ":" ++
    pad2 (rem / 1000 % 60) ++ "." ++ pad3 (rem % 1000) ++ "Z"

/-- `TimeUtils.formatDate`: renders the named formats; any other format
string falls through to `toISOString()`.  (The `MM/DD` and `YYYY-MM`
formats requested by `calculateTimePeriodStats` are NOT among the cases.) -/
def formatDate (t : Int) (format : String) : String :=
  let z := t.fdiv dayMs
  let rem : Nat := (t - z * dayMs).toNat
  let ymd := civilFromDays z
  let year := toString ymd.1.toNat
  let month := pad2 ymd.2.1
  let day := pad2 ymd.2.2
  let hours := pad2 (rem / 3600000)
  let minutes := pad2 (rem / 60000 % 60)
  let seconds := pad2 (rem / 1000 % 60)
  if format = "YYYY-MM-DD" then year ++ "-" ++ month ++ "-" ++ day
  else if format = "YYYY-MM-DD HH:mm" then
    year ++ "-" ++ month ++ "-" ++ day ++ " " ++ hours ++ ":" ++ minutes
  else if format = "YYYY-MM-DD HH:mm:ss" then
    year ++ "-" ++ month ++ "-" ++ day ++ " " ++ hours ++ ":" ++ minutes ++ ":" ++ seconds
  else if format = "MM/DD/YYYY" then month ++ "/" ++ day ++ "/" ++ year
  else if format = "DD/MM/YYYY" then day ++ "/" ++ month ++ "/" ++ year
  else if format = "HH:mm" then hours ++ ":" ++ minutes
  else toISOString t

/-- `TimeUtils.getWeekNumber`: ISO-8601-style week of year. -/
def getWeekNumber (t : Int) : Nat :=
  let z := t.fdiv dayMs
  let dayNum : Int := if getDayOfWeek t = 0 then 7 else getDayOfWeek t
  let z' := z + 4 - dayNum
  let ymd := civilFromDays z'
  let yearStart := daysFromCivil ymd.1 1 1
  ((z' - yearStart).toNat + 1 + 6) / 7

/-! ## Task records and JavaScript-number helpers -/

/-- A task record.  `createTime`/`updateTime` are ISO timestamps in the
source; they are modelled directly as millisecond instants. -/
structure Todo where
  id : String
  title : String
  description : Option String := none
  completed : Bool
  createTime : Int
  updateTime : Option Int := none
deriving DecidableEq, Repr

/-- `Math.round` on an exact value: JavaScript rounds half toward +∞. -/
def jsRound (q : ℚ) : Int := ⌊q + 1 / 2⌋

/-- `Math.round(q * 10) / 10`: round to one decimal place. -/
def round1 (q : ℚ) : ℚ := (jsRound (q * 10) : ℚ) / 10

/-- A JavaScript number that may be NaN.  Values that stay exact are
carried as rationals. -/
inductive JSNum where
  | nan
  | num (q : ℚ)
deriving DecidableEq, Repr

/-- JavaScript division.  In the code paths modelled with `JSNum` the
numerator is zero whenever the denominator is, so every zero-denominator
division is `0 / 0 = NaN` (no infinities can arise). -/
def jsDiv : JSNum → JSNum → JSNum
  | .num a, .num b => if b = 0 then .nan else .num (a / b)
  | _, _ => .nan

/-- Multiplication on possibly-NaN numbers. -/
def jsMul : JSNum → JSNum → JSNum
  | .num a, .num b => .num (a * b)
  | _, _ => .nan

/-- `Math.round` on a possibly-NaN number (`Math.round(NaN)` is NaN). -/
def jsRoundN : JSNum → JSNum
  | .nan => .nan
  | .num q => .num (jsRound q : ℚ)

/-- `x > c` on a possibly-NaN number: any comparison with NaN is false. -/
def jsGt (x : JSNum) (c : ℚ) : Bool :=
  match x with
  | .nan => false
  | .num q => decide (c < q)

/-! ## Metrics Calculator (`metricsCalculator.js`) -/

/-- A `{start, end}` time range (`end` is a Lean keyword; the field is
named `stop`). -/
structure TimeRange where
  start : Int
  stop : Int
deriving DecidableEq, Repr

/-- Result shape of `calculateCompletionRate`. -/
structure CompletionStats where
  total : Nat
  completed : Nat
  pending : Nat
  completionRate : Int
  pendingRate : Int
deriving DecidableEq, Repr

/-- `MetricsCalculator.calculateCompletionRate`: filter to the range by
`createTime` (inclusive on both ends), then return counts and rounded
integer percentages; an empty selection short-circuits to all zeros. -/
def calculateCompletionRate (todos : List Todo) (timeRange : Option TimeRange) :
    CompletionStats :=
  let filteredTodos :=
    match timeRange with
    | some r => todos.filter (fun (t : Todo) =>
        decide (r.start ≤ t.createTime) && decide (t.createTime ≤ r.stop))
    | none => todos
  let total := filteredTodos.length
  if total = 0 then ⟨0, 0, 0, 0, 0⟩
  else
    let completed := (filteredTodos.filter (fun t => t.completed)).length
    let pending := total - completed
    ⟨total, completed, pending,
      jsRound ((completed : ℚ) / total * 100),
      jsRound ((pending : ℚ) / total * 100)⟩

/-- One bucket of `calculateTimePeriodStats`. -/
structure PeriodStat where
  label : String
  period : String
  startDate : Int
  stopDate : Int
  total : Nat
  completed : Nat
  pending : Nat
  completionRate : Int
  pendingRate : Int
deriving DecidableEq, Repr

/-- `new Date(now); d.setMonth(now.getMonth() - i)`: JavaScript
month-shifting with day-of-month overflow (a day past the end of the
target month rolls into the following month). -/
def setMonthShift (t : Int) (shift : Nat) : Int :=
  let z := t.fdiv dayMs
  let rem := t - z * dayMs
  let ymd := civilFromDays z
  let monthIx : Int := (ymd.2.1 : Int) - 1 - shift
  let y' := ymd.1 + monthIx.fdiv 12
  let m' : Nat := (monthIx % 12).toNat + 1
  daysFromCivil y' m' 1 * dayMs + ((ymd.2.2 : Int) - 1) * dayMs + rem

/-- `TimeUtils.getStartOfMonth`. -/
def getStartOfMonth (t : Int) : Int :=
  let ymd := civilFromDays (t.fdiv dayMs)
  daysFromCivil ymd.1 ymd.2.1 1 * dayMs

/-- `TimeUtils.getEndOfMonth`. -/
def getEndOfMonth (t : Int) : Int :=
  let ymd := civilFromDays (t.fdiv dayMs)
  daysFromCivil ymd.1 ymd.2.1 (daysInMonth ymd.1 ymd.2.1) * dayMs + dayMs - 1

/-- One iteration of the `calculateTimePeriodStats` loop: the bucket for
index `i` (0 = the current period), for a period that passed the switch. -/
def mkPeriodBucket (todos : List Todo) (period : String) (now : Int) (i : Nat) :
    PeriodStat :=
  let se : Int × Int × String :=
    if period = "day" then
      let ps := getStartOfDay (now - (i : Int) * dayMs)
      (ps, getEndOfDay ps, formatDate ps "MM/DD")
    else if period = "week" then
      let ps := getStartOfWeek (now - (i : Int) * 7 * dayMs)
      (ps, getEndOfWeek ps, "W" ++ toString (getWeekNumber ps))
    else
      let ps := getStartOfMonth (setMonthShift now i)
      (ps, getEndOfMonth ps, formatDate ps "YYYY-MM")
  let stats := calculateCompletionRate todos (some ⟨se.1, se.2.1⟩)
  ⟨se.2.2, period, se.1, se.2.1, stats.total, stats.completed, stats.pending,
    stats.completionRate, stats.pendingRate⟩

/-- `MetricsCalculator.calculateTimePeriodStats`: builds `periodCount`
buckets, prepending each (`unshift`), so the result is oldest-first.  An
unknown period throws inside the loop, hence only when the loop body runs. -/
def calculateTimePeriodStats (todos : List Todo) (period : String)
    (periodCount : Nat) (now : Int) : Except String (List PeriodStat) :=
  if period = "day" ∨ period = "week" ∨ period = "month" then
    .ok (((List.range periodCount).map (mkPeriodBucket todos period now)).reverse)
  else if periodCount = 0 then .ok []
  else .error ("Unsupported period type: " ++ period)

/-- Inputs of `calculateProcrastinationLevel`. -/
structure LevelInputs where
  totalTasks : Nat
  delayedTasks : Nat
  longTermDelayed : Nat
  veryLongTermDelayed : Nat
  avgCompletionDays : ℚ
deriving DecidableEq, Repr

/-- The accumulated score of `calculateProcrastinationLevel`: four guarded,
individually capped contributions. -/
def procScore (m : LevelInputs) : ℚ :=
  (if 0 < m.totalTasks then
    min ((m.delayedTasks : ℚ) / m.totalTasks * 30) 30 else 0) +
  (if 0 < m.delayedTasks then
    min ((m.longTermDelayed : ℚ) / m.delayedTasks * 25) 25 else 0) +
  (if 0 < m.delayedTasks then
    min ((m.veryLongTermDelayed : ℚ) / m.delayedTasks * 25) 25 else 0) +
  (if 7 < m.avgCompletionDays then
    min ((m.avgCompletionDays - 7) * 2) 20 else 0)

/-- `MetricsCalculator.calculateProcrastinationLevel`: threshold the score. -/
def calculateProcrastinationLevel (m : LevelInputs) : String :=
  let score := procScore m
  if score < 20 then "low"
  else if score < 40 then "moderate"
  else if score < 70 then "high"
  else "very_high"

/-- `MetricsCalculator.generateProcrastinationRecommendations`: the fixed
advice list for each level (an unknown level yields `[]`). -/
def generateProcrastinationRecommendations (level : String) : List String :=
  if level = "low" then
    ["保持当前良好的工作节奏", "可以尝试挑战更多任务", "定期回顾和优化工作方法"]
  else if level = "moderate" then
    ["尝试将大任务分解为小任务", "设定具体的截止时间", "使用番茄工作法提高专注度"]
  else if level = "high" then
    ["优先处理最紧急的任务", "每天设定最多3个重要任务", "消除工作环境中的干扰因素",
     "寻求他人的监督和支持"]
  else if level = "very_high" then
    ["立即处理积压任务", "每天只专注1-2个最重要的任务", "考虑寻求专业的时间管理指导",
     "分析拖延的根本原因", "建立奖惩机制"]
  else []

/-- Result shape of `calculateProcrastinationMetrics`. -/
structure ProcrastinationMetrics where
  totalPendingTasks : Nat
  delayedTasks : Nat
  longTermDelayed : Nat
  veryLongTermDelayed : Nat
  avgDelayDays : ℚ
  avgCompletionDays : ℚ
  procrastinationLevel : String
  recommendations : List String
deriving DecidableEq, Repr

/-- The delay in days of a pending task as computed in the loop body. -/
def delayDaysOf (now : Int) (t : Todo) : Nat := getDaysDifference t.createTime now

/-- `MetricsCalculator.calculateProcrastinationMetrics`: count pending
tasks delayed more than 1 / 7 / 30 days, average the completion latency
of completed tasks carrying an `updateTime`, and grade the result. -/
def calculateProcrastinationMetrics (todos : List Todo) (now : Int) :
    ProcrastinationMetrics :=
  let pendingTasks := todos.filter (fun t => !t.completed)
  let delayed := pendingTasks.filter (fun t => 1 < delayDaysOf now t)
  let delayedTasks := delayed.length
  let totalDelayDays : Nat := (delayed.map (delayDaysOf now)).sum
  let longTermDelayed := (delayed.filter (fun t => 7 < delayDaysOf now t)).length
  let veryLongTermDelayed := (delayed.filter (fun t => 30 < delayDaysOf now t)).length
  let completedTasks := todos.filter (fun (t : Todo) => t.completed && t.updateTime.isSome)
  let completionDays : List Nat :=
    completedTasks.map (fun t => getDaysDifference t.createTime (t.updateTime.getD 0))
  let avgCompletionDays : ℚ :=
    if completedTasks.length = 0 then 0
    else round1 ((completionDays.sum : ℚ) / completedTasks.length)
  let level := calculateProcrastinationLevel
    ⟨todos.length, delayedTasks, longTermDelayed, veryLongTermDelayed, avgCompletionDays⟩
  ⟨pendingTasks.length, delayedTasks, longTermDelayed, veryLongTermDelayed,
    (if 0 < delayedTasks then round1 ((totalDelayDays : ℚ) / delayedTasks) else 0),
    avgCompletionDays, level, generateProcrastinationRecommendations level⟩

/-! ## Task-pattern analysis and the frequency mode -/

/-- State of the `findMostFrequentValue` loop: the frequency table, the
best count so far, and the current champion (`null` initially). -/
structure FMFState where
  freq : Int → Nat
  maxCount : Nat
  mostFrequent : Option Int

/-- One loop iteration of `findMostFrequentValue`: bump the value's count
and take over the champion only on a strict improvement. -/
def fmfStep (s : FMFState) (value : Int) : FMFState :=
  let newCount := s.freq value + 1
  let freq' := fun v => if v = value then newCount else s.freq v
  if s.maxCount < newCount then ⟨freq', newCount, some value⟩
  else ⟨freq', s.maxCount, s.mostFrequent⟩

/-- `MetricsCalculator.findMostFrequentValue`. -/
def findMostFrequentValue (array : List Int) : Option Int :=
  (array.foldl fmfStep ⟨fun _ => 0, 0, none⟩).mostFrequent

/-- Result shape of `analyzeTaskPatterns`.  The two averages can be NaN
(division by a zero length), hence `JSNum`. -/
structure TaskPatterns where
  avgTitleLength : JSNum
  descriptionUsage : JSNum
  peakCreationHour : Option Int
  taskComplexity : String
  planningHabit : String
deriving DecidableEq, Repr

/-- `MetricsCalculator.analyzeTaskPatterns`: average title length,
share of records with a non-empty (trimmed) description, and the modal
creation hour.  The divisions `… / titleLengths.length` and
`… / todos.length` are unguarded. -/
def analyzeTaskPatterns (todos : List Todo) : TaskPatterns :=
  let titleLengths := todos.map (fun t => t.title.length)
  let avgTitleLength :=
    jsDiv (.num (titleLengths.sum : ℚ)) (.num (titleLengths.length : ℚ))
  let withDescription := (todos.filter (fun (t : Todo) =>
    match t.description with
    | some s => s.trim ≠ ""
    | none => false)).length
  let descriptionUsage :=
    jsRoundN (jsMul (jsDiv (.num (withDescription : ℚ)) (.num (todos.length : ℚ)))
      (.num 100))
  let creationHours := todos.map (fun t => getHours t.createTime)
  let peakCreationHour := findMostFrequentValue creationHours
  ⟨jsRoundN avgTitleLength, descriptionUsage, peakCreationHour,
    (if jsGt avgTitleLength 30 then "complex" else "simple"),
    (if jsGt descriptionUsage 50 then "detailed" else "minimal")⟩

/-! ## JSON values

`JSON.stringify` / `JSON.parse` are modelled over an explicit JSON value
type (a mutual inductive, so that all recursion stays structural and
kernel-computable).  JavaScript `Date` leaves do not appear: `stringify`
turns them into their ISO strings, which is how they are modelled here. -/

mutual
inductive Json where
  | null
  | bool (b : Bool)
  | num (q : ℚ)
  | str (s : String)
  | arr (elems : JsonList)
  | obj (fields : JsonFields)
deriving DecidableEq, Repr
inductive JsonList where
  | nil
  | cons (hd : Json) (tl : JsonList)
deriving DecidableEq, Repr
inductive JsonFields where
  | nil
  | cons (key : String) (val : Json) (tl : JsonFields)
deriving DecidableEq, Repr
end

/-- The `\x7b` character. -/
def lbrace : Char := Char.ofNat 123

/-- The `\x7d` character. -/
def rbrace : Char := Char.ofNat 125

/-- The decimal digit character for `d < 10`. -/
def digitChar (d : Nat) : Char := Char.ofNat (48 + d)

/-- Decimal digits of `n`, most significant first; fuel-structured so the
kernel can evaluate it. -/
def natDigitsAux : Nat → Nat → List Char
  | 0, _ => []
  | fuel + 1, n =>
    if n < 10 then [digitChar n]
    else natDigitsAux fuel (n / 10) ++ [digitChar (n % 10)]

/-- Decimal digits of `n` (`String(n)` for a natural number). -/
def natDigits (n : Nat) : List Char := natDigitsAux (n + 1) n

/-- Left-pad a digit run with zeros to width `k`. -/
def padZeros (k : Nat) (ds : List Char) : List Char :=
  List.replicate (k - ds.length) '0' ++ ds

/-- The decimal rendering of an exact JavaScript number whose denominator
is a power of ten (the only shape `JSON.stringify` is proved about):
optional sign, integer digits, and — when the denominator exceeds 1 — a
fractional part of exactly `log10 den` digits.  Because rationals are
normalised, the last fractional digit is automatically non-zero, matching
JavaScript's shortest-form float printing on such values. -/
def numChars (q : ℚ) : List Char :=
  let sign : List Char := if q < 0 then ['-'] else []
  let n := q.num.natAbs
  if q.den = 1 then sign ++ natDigits n
  else
    let k := Nat.log 10 q.den
    sign ++ natDigits (n / q.den) ++ '.' :: padZeros k (natDigits (n % q.den))

/-- Newline followed by `ind` spaces: the separator `JSON.stringify(v,
null, 2)` emits before an element at indentation `ind`. -/
def nlInd (ind : Nat) : List Char := '\n' :: List.replicate ind ' '

mutual
/-- `JSON.stringify(v, null, 2)` as a character list, at indentation
`ind`. -/
def printJson (ind : Nat) : Json → List Char
  | .null => ['n', 'u', 'l', 'l']
  | .bool false => ['f', 'a', 'l', 's', 'e']
  | .bool true => ['t', 'r', 'u', 'e']
  | .num q => numChars q
  | .str s => '"' :: s.data ++ ['"']
  | .arr .nil => ['[', ']']
  | .arr (.cons e tl) =>
    '[' :: (nlInd (ind + 2) ++ printJson (ind + 2) e ++
      printArrTail (ind + 2) tl ++ nlInd ind ++ [']'])
  | .obj .nil => [lbrace, rbrace]
  | .obj (.cons k v tl) =>
    lbrace :: (nlInd (ind + 2) ++ ('"' :: k.data ++ ['"', ':', ' ']) ++
      printJson (ind + 2) v ++ printObjTail (ind + 2) tl ++ nlInd ind ++ [rbrace])
/-- The remaining elements of a non-empty array: `",\n<ind>"` before each. -/
def printArrTail (ind : Nat) : JsonList → List Char
  | .nil => []
  | .cons e tl => ',' :: nlInd ind ++ printJson ind e ++ printArrTail ind tl
/-- The remaining members of a non-empty object. -/
def printObjTail (ind : Nat) : JsonFields → List Char
  | .nil => []
  | .cons k v tl =>
    ',' :: nlInd ind ++ ('"' :: k.data ++ ['"', ':', ' ']) ++
      printJson ind v ++ printObjTail ind tl
end

/-- `JSON.stringify(v, null, 2)`. -/
def stringify2 (v : Json) : String := ⟨printJson 0 v⟩

mutual
/-- `JSON.stringify(v)` (compact form, no whitespace) as a character list. -/
def printJsonC : Json → List Char
  | .null => ['n', 'u', 'l', 'l']
  | .bool false => ['f', 'a', 'l', 's', 'e']
  | .bool true => ['t', 'r', 'u', 'e']
  | .num q => numChars q
  | .str s => '"' :: s.data ++ ['"']
  | .arr .nil => ['[', ']']
  | .arr (.cons e tl) => '[' :: printJsonC e ++ printListC tl ++ [']']
  | .obj .nil => [lbrace, rbrace]
  | .obj (.cons k v tl) =>
    lbrace :: ('"' :: k.data ++ ['"', ':']) ++ printJsonC v ++ printFieldsC tl ++ [rbrace]
/-- Remaining compact array elements, comma-prefixed. -/
def printListC : JsonList → List Char
  | .nil => []
  | .cons e tl => ',' :: printJsonC e ++ printListC tl
/-- Remaining compact object members, comma-prefixed. -/
def printFieldsC : JsonFields → List Char
  | .nil => []
  | .cons k v tl => ',' :: ('"' :: k.data ++ ['"', ':']) ++ printJsonC v ++ printFieldsC tl
end

/-- `JSON.stringify(v)`. -/
def stringifyCompact (v : Json) : String := ⟨printJsonC v⟩

/-- A character `JSON.stringify` emits verbatim inside a string literal:
printable and needing no escape. -/
def safeChar (c : Char) : Bool := 32 ≤ c.toNat && c ≠ '"' && c ≠ '\\'

/-- A string none of whose characters needs escaping. -/
def safeString (s : String) : Bool := s.data.all safeChar

/-- A rational that prints as a finite decimal: denominator 1 or a proper
power of ten.  (Every JavaScript float prints as a finite decimal; the
exact-rational embedding is proved for these.) -/
def wfNumQ (q : ℚ) : Bool :=
  q.den = 1 || (q.den = 10 ^ Nat.log 10 q.den && 1 ≤ Nat.log 10 q.den)

mutual
/-- Serialization-friendly JSON value: escape-free strings and
finite-decimal numbers throughout. -/
def wfJson : Json → Bool
  | .null => true
  | .bool _ => true
  | .num q => wfNumQ q
  | .str s => safeString s
  | .arr es => wfJsonList es
  | .obj fs => wfJsonFields fs
/-- `wfJson` on every element. -/
def wfJsonList : JsonList → Bool
  | .nil => true
  | .cons e tl => wfJson e && wfJsonList tl
/-- `wfJson` on every value, `safeString` on every key. -/
def wfJsonFields : JsonFields → Bool
  | .nil => true
  | .cons k v tl => safeString k && wfJson v && wfJsonFields tl
end

mutual
/-- Parser fuel adequate for a value (one unit per constructor and per
sequence element). -/
def jsize : Json → Nat
  | .null => 1
  | .bool _ => 1
  | .num _ => 1
  | .str _ => 1
  | .arr es => 1 + jlistSize es
  | .obj fs => 1 + jfieldsSize fs
/-- Fuel adequate for an array tail. -/
def jlistSize : JsonList → Nat
  | .nil => 0
  | .cons e tl => 1 + jsize e + jlistSize tl
/-- Fuel adequate for an object tail. -/
def jfieldsSize : JsonFields → Nat
  | .nil => 0
  | .cons _ v tl => 1 + jsize v + jfieldsSize tl
end

/-! ## JSON parsing (the model of `JSON.parse`) -/

/-- JSON insignificant whitespace. -/
def isWsChar (c : Char) : Bool := c = ' ' || c = '\n' || c = '\t' || c = '\r'

/-- Drop leading whitespace. -/
def skipWs : List Char → List Char
  | [] => []
  | c :: cs => if isWsChar c then skipWs cs else c :: cs

/-- Parse a string body after the opening quote, up to the closing quote
(escape-free strings only, matching what the printer emits). -/
def parseStrBody (cs : List Char) : Option (String × List Char) :=
  match cs.dropWhile (fun c => c ≠ '"') with
  | '"' :: rest => some (⟨cs.takeWhile (fun c => c ≠ '"')⟩, rest)
  | _ => none

/-- Value of a digit run, most significant first. -/
def digitsVal (ds : List Char) : Nat :=
  ds.foldl (fun acc c => acc * 10 + (c.toNat - 48)) 0

/-- Parse an optionally-signed decimal number (integer part, optional
fractional part). -/
def parseNum (cs : List Char) : Option (ℚ × List Char) :=
  let neg : Bool := cs.take 1 = ['-']
  let cs1 := if neg then cs.drop 1 else cs
  let ip := cs1.takeWhile Char.isDigit
  let cs2 := cs1.dropWhile Char.isDigit
  if ip.isEmpty then none
  else if cs2.take 1 = ['.'] then
    let cs3 := cs2.drop 1
    let fp := cs3.takeWhile Char.isDigit
    let cs4 := cs3.dropWhile Char.isDigit
    if fp.isEmpty then none
    else
      let q : ℚ := (digitsVal ip : ℚ) + (digitsVal fp : ℚ) / (10 : ℚ) ^ fp.length
      some (if neg then -q else q, cs4)
  else
    some ((if neg then -(digitsVal ip : ℚ) else (digitsVal ip : ℚ)), cs2)

mutual
/-- Fuel-indexed JSON parser: one value, returning the unconsumed rest. -/
def parseJson : Nat → List Char → Option (Json × List Char)
  | 0, _ => none
  | fuel + 1, cs0 =>
    let cs := skipWs cs0
    if cs.take 4 = ['n', 'u', 'l', 'l'] then some (.null, cs.drop 4)
    else if cs.take 4 = ['t', 'r', 'u', 'e'] then some (.bool true, cs.drop 4)
    else if cs.take 5 = ['f', 'a', 'l', 's', 'e'] then some (.bool false, cs.drop 5)
    else if cs.take 1 = ['"'] then
      (parseStrBody (cs.drop 1)).map fun p => (Json.str p.1, p.2)
    else if cs.take 1 = ['['] then
      if (skipWs (cs.drop 1)).take 1 = [']'] then
        some (.arr .nil, (skipWs (cs.drop 1)).drop 1)
      else (parseArrElems fuel (cs.drop 1)).map fun p => (Json.arr p.1, p.2)
    else if cs.take 1 = [lbrace] then
      if (skipWs (cs.drop 1)).take 1 = [rbrace] then
        some (.obj .nil, (skipWs (cs.drop 1)).drop 1)
      else (parseObjElems fuel (cs.drop 1)).map fun p => (Json.obj p.1, p.2)
    else (parseNum cs).map fun p => (Json.num p.1, p.2)
/-- One or more comma-separated elements followed by `]`. -/
def parseArrElems : Nat → List Char → Option (JsonList × List Char)
  | 0, _ => none
  | fuel + 1, cs =>
    match parseJson fuel cs with
    | none => none
    | some (e, cs1) =>
      let cs2 := skipWs cs1
      if cs2.take 1 = [','] then
        match parseArrElems fuel (cs2.drop 1) with
        | some (tl, rest) => some (.cons e tl, rest)
        | none => none
      else if cs2.take 1 = [']'] then some (.cons e .nil, cs2.drop 1)
      else none
/-- One or more comma-separated `"key": value` members followed by the
closing brace. -/
def parseObjElems : Nat → List Char → Option (JsonFields × List Char)
  | 0, _ => none
  | fuel + 1, cs =>
    let cs1 := skipWs cs
    if cs1.take 1 = ['"'] then
      match parseStrBody (cs1.drop 1) with
      | none => none
      | some (k, cs2) =>
        if (skipWs cs2).take 1 = [':'] then
          match parseJson fuel ((skipWs cs2).drop 1) with
          | none => none
          | some (v, cs3) =>
            let cs4 := skipWs cs3
            if cs4.take 1 = [','] then
              match parseObjElems fuel (cs4.drop 1) with
              | some (tl, rest) => some (.cons k v tl, rest)
              | none => none
            else if cs4.take 1 = [rbrace] then some (.cons k v .nil, cs4.drop 1)
            else none
        else none
    else none
end

/-- `JSON.parse` (on the printer's output language): parse one value and
require only trailing whitespace. -/
def parseJsonTop (s : String) : Option Json :=
  match parseJson (s.data.length + 1) s.data with
  | some (v, rest) => if (skipWs rest).isEmpty then some v else none
  | none => none

/-! ## Analytics Engine cache keys (`AnalyticsEngine.generateCacheKey`) -/

/-- A task record as the JSON value `JSON.stringify` sees (insertion
order `id`, `title`, `completed`, `createTime`, then the optional
fields added by later mutations).  Timestamps are stored as ISO strings. -/
def todoToJson (t : Todo) : Json :=
  .obj (.cons "id" (.str t.id) (.cons "title" (.str t.title)
    (.cons "completed" (.bool t.completed)
      (.cons "createTime" (.str (toISOString t.createTime))
        (match t.updateTime with
         | some u => .cons "updateTime" (.str (toISOString u)) .nil
         | none => .nil)))))

/-- The `JsonList` of a record collection. -/
def jsonOfTodos : List Todo → JsonList
  | [] => .nil
  | t :: ts => .cons (todoToJson t) (jsonOfTodos ts)

/-- The `{ todos, options }` object `generateAnalysisReport` fingerprints. -/
def fullReportRequest (todos : List Todo) (options : Json) : Json :=
  .obj (.cons "todos" (.arr (jsonOfTodos todos)) (.cons "options" options .nil))

/-- `AnalyticsEngine.generateCacheKey`:
`` `${prefix}_${JSON.stringify(data).slice(0, 50)}_${Date.now()}` ``.
`slice(0, 50)` takes the first 50 UTF-16 units; on the BMP characters
involved that is the first 50 characters. -/
def generateCacheKey (keyPrefix : String) (data : Json) (nowMs : Int) : String :=
  keyPrefix ++ "_" ++ (⟨(printJsonC data).take 50⟩ : String) ++ "_" ++ toString nowMs

/-- 2026-10-12 (a Monday) at 15:30 local time, as a millisecond instant. -/
def nowOct12 : Int := daysFromCivil 2026 10 12 * dayMs + 55800000

/-- A one-record collection whose title pushes the distinguishing content
past the 50-character cache-key truncation point. -/
def todosA : List Todo :=
  [{ id := "a", title := "write the quarterly report draft version A",
     completed := false, createTime := 0 }]

/-- Like `todosA` but a different record set of the same length. -/
def todosB : List Todo :=
  [{ id := "a", title := "write the quarterly report draft version B",
     completed := false, createTime := 0 }]

/-- Predicate for the C7 scenario's completed records: carries an
`updateTime`, was created within the last 2 days, and was updated between
creation and now. -/
def completedWithin2Days (now : Int) (t : Todo) : Bool :=
  match t.updateTime with
  | none => false
  | some u => decide (now - 2 * dayMs ≤ t.createTime) &&
      decide (t.createTime ≤ u) && decide (u ≤ now)

def scenarioTodos : List Todo :=
  (List.range 7).map (fun i =>
    { id := "c" ++ toString i, title := "done", completed := true,
      createTime := nowOct12 - dayMs,
      updateTime := some (nowOct12 - dayMs + hourMs) }) ++
  (List.range 3).map (fun i =>
    { id := "p" ++ toString i, title := "todo", completed := false,
      createTime := nowOct12 - 10 * dayMs })

/-- The highest frequency of any element of `p`. -/
def maxFreq (p : List Int) : Nat := (p.map (fun v => p.count v)).foldr max 0

/-- What `findMostFrequentValue`'s champion satisfies after processing
`p`: absent champions mean an empty input; a champion `m` is the element
whose running count is the first to reach the final maximum frequency. -/
def AchieverProp (p : List Int) : Option Int → Prop
  | none => p = []
  | some m => ∃ i, ∃ hi : i < p.length, p.get ⟨i, hi⟩ = m ∧
      (p.take (i + 1)).count m = maxFreq p ∧
      ∀ j, ∀ hj : j < p.length, j < i →
        (p.take (j + 1)).count (p.get ⟨j, hj⟩) < maxFreq p

/-- A single record for the witness. -/
def soloTodo : Todo :=
  { id := "1", title := "a", completed := false, createTime := hourMs }

/-- Four records whose creation hours are `[2, 1, 1, 2]`. -/
def todos4 : List Todo :=
  [{ id := "1", title := "a", completed := false, createTime := 2 * hourMs },
   { id := "2", title := "b", completed := false, createTime := 1 * hourMs },
   { id := "3", title := "c", completed := false, createTime := 1 * hourMs + 60000 },
   { id := "4", title := "d", completed := false, createTime := 2 * hourMs + 120000 }]

/-! ## Analytics Engine export (`AnalyticsEngine.exportAnalysisData`) -/

/-- Field lookup in a JSON object (`data.field`; `none` = `undefined`). -/
def jfieldsGet : JsonFields → String → Option Json
  | .nil, _ => none
  | .cons k v tl, key => if k = key then some v else jfieldsGet tl key

/-- Property access on a JSON value. -/
def jget : Json → String → Option Json
  | .obj fs, k => jfieldsGet fs k
  | _, _ => none

/-- JavaScript truthiness of a (possibly absent) JSON value. -/
def jtruthy : Option Json → Bool
  | none => false
  | some .null => false
  | some (.bool b) => b
  | some (.num q) => q ≠ 0
  | some (.str s) => s ≠ ""
  | some (.arr _) => true
  | some (.obj _) => true

/-- A `JsonList` as a Lean list. -/
def jlistToList : JsonList → List Json
  | .nil => []
  | .cons e tl => e :: jlistToList tl

mutual
/-- Template-literal interpolation `${v}` of a JSON value. -/
def jshowJ : Json → String
  | .null => "null"
  | .bool true => "true"
  | .bool false => "false"
  | .num q => ⟨numChars q⟩
  | .str s => s
  | .arr es => jshowList es
  | .obj _ => "[object Object]"
/-- `Array.prototype.toString`: elements joined by commas. -/
def jshowList : JsonList → String
  | .nil => ""
  | .cons e .nil => jshowJ e
  | .cons e (.cons f tl) => jshowJ e ++ "," ++ jshowList (.cons f tl)
end

/-- Interpolation of a possibly-absent value (`undefined` when absent). -/
def jshow : Option Json → String
  | none => "undefined"
  | some v => jshowJ v

/-- `AnalyticsEngine.convertToCSV`: header row plus one row per `day`
bucket of the report's `timePeriodAnalysis`, when present. -/
def convertToCSV (data : Json) : String :=
  let header := ["日期,创建任务数,完成任务数,完成率"]
  let dayv := (jget data "timePeriodAnalysis").bind (fun tpa => jget tpa "day")
  let rows :=
    if jtruthy (jget data "timePeriodAnalysis") && jtruthy dayv then
      match dayv with
      | some (.arr ds) => header ++ (jlistToList ds).map (fun p =>
          jshow (jget p "label") ++ "," ++ jshow (jget p "total") ++ "," ++
          jshow (jget p "completed") ++ "," ++ jshow (jget p "completionRate") ++ "%")
      | _ => header
    else header
  String.intercalate "\n" rows

/-- `AnalyticsEngine.generateTextSummary`: the fixed-section digest.
(`toLocaleString()` of the generation instant is locale-dependent; it is
modelled as the stored ISO string itself.) -/
def generateTextSummary (data : Json) : String :=
  let header := ["=== Todo 数据分析报告 ===",
    "生成时间: " ++ jshow ((jget data "metadata").bind (fun m => jget m "generatedAt")), ""]
  let overviewLines :=
    if jtruthy (jget data "overview") then
      match (jget data "overview").bind (fun o => jget o "overall") with
      | some ov =>
        ["【总体概览】",
         "总任务数: " ++ jshow (jget ov "total"),
         "已完成: " ++ jshow (jget ov "completed") ++ " (" ++ jshow (jget ov "completionRate") ++ "%)",
         "待完成: " ++ jshow (jget ov "pending") ++ " (" ++ jshow (jget ov "pendingRate") ++ "%)", ""]
      | none => ["【总体概览】",
         "总任务数: undefined", "已完成: undefined (undefined%)",
         "待完成: undefined (undefined%)", ""]
    else []
  let trendLines :=
    if jtruthy (jget data "productivityTrend") then
      match jget data "productivityTrend" with
      | some tr =>
        ["【生产力趋势】", jshow (jget tr "description"),
         "平均每日完成: " ++ jshow (jget tr "dailyAverage") ++ " 个任务", ""]
      | none => []
    else []
  let procLines :=
    if jtruthy (jget data "procrastinationAnalysis") then
      match jget data "procrastinationAnalysis" with
      | some pr =>
        ["【拖延情况】", "拖延等级: " ++ jshow (jget pr "procrastinationLevel"),
         "拖延任务: " ++ jshow (jget pr "delayedTasks") ++ " 个",
         "长期拖延: " ++ jshow (jget pr "longTermDelayed") ++ " 个", ""]
      | none => []
    else []
  let recLines :=
    if jtruthy (jget data "recommendations") then
      match (jget data "recommendations").bind (fun r => jget r "immediate") with
      | some (.arr rs) =>
        ["【推荐建议】"] ++ (jlistToList rs).map (fun rec =>
          "• " ++ jshow (jget rec "title") ++ ": " ++ jshow (jget rec "description")) ++ [""]
      | _ => ["【推荐建议】", ""]
    else []
  String.intercalate "\n" (header ++ overviewLines ++ trendLines ++ procLines ++ recLines)

/-- `AnalyticsEngine.exportAnalysisData`: dispatch on the format; the
supported formats are `json`, `csv` and `summary`, and anything else
throws `不支持的导出格式: <format>`. -/
def exportAnalysisData (analysisData : Json) (format : String) : Except String String :=
  if format = "json" then .ok (stringify2 analysisData)
  else if format = "csv" then .ok (convertToCSV analysisData)
  else if format = "summary" then .ok (generateTextSummary analysisData)
  else .error ("不支持的导出格式: " ++ format)

/-- Whitespace-only character runs (what the printer puts between tokens). -/
def AllWs (ws : List Char) : Prop := ∀ c ∈ ws, isWsChar c = true

/-- A follower that cannot extend a number literal. -/
def FollowOk (rest : List Char) : Prop :=
  ∀ c ∈ rest.take 1, c.isDigit = false ∧ c ≠ '.'

/-- Report-shaped sample value: the sections `generateAnalysisReport`
assembles (metadata, summary, trend, procrastination, recommendations). -/
def sampleReport : Json :=
  .obj (.cons "metadata"
      (.obj (.cons "totalRecords" (.num 10) (.cons "version" (.str "1.0") .nil)))
    (.cons "summary"
      (.obj (.cons "totalTasks" (.num 10)
        (.cons "completedTasks" (.num 7)
          (.cons "completionRate" (.num (703 / 10)) .nil))))
    (.cons "productivity"
      (.obj (.cons "trend" (.str "improving")
        (.cons "changePercentage" (.num (23 / 10)) .nil)))
    (.cons "procrastination"
      (.obj (.cons "level" (.str "moderate")
        (.cons "score" (.num 35)
          (.cons "delayedTasks" (.num 3) .nil))))
    (.cons "recommendations"
      (.arr (.cons (.str "建议设置任务提醒") (.cons (.str "保持当前的良好习惯") .nil)))
      .nil)))))

/-! ## Theorems -/

/-- The fractional floor-division lemma behind start-of-day arithmetic:
taking the start of day commutes with shifting by whole days. -/
theorem getStartOfDay_sub_mul (t k : Int) :
    getStartOfDay (t - k * dayMs) = getStartOfDay t - k * dayMs := by
  unfold getStartOfDay dayMs
  rw [Int.fdiv_eq_ediv _ (by norm_num), Int.fdiv_eq_ediv _ (by norm_num)]
  have h : t - k * (86400000 : Int) = t + (-k) * 86400000 := by ring
  rw [h, Int.add_mul_ediv_right _ _ (by norm_num : (86400000 : Int) ≠ 0)]
  ring

/-- Start-of-day is idempotent. -/
theorem getStartOfDay_idem (t : Int) :
    getStartOfDay (getStartOfDay t) = getStartOfDay t := by
  unfold getStartOfDay dayMs
  rw [Int.fdiv_eq_ediv _ (by norm_num),
    Int.mul_ediv_cancel_left _ (by norm_num : (86400000 : Int) ≠ 0)]

/-- Splitting a list's length by a Boolean predicate. -/
theorem length_filter_add_length_filter_not {α : Type} (p : α → Bool) (l : List α) :
    (l.filter p).length + (l.filter (fun a => !(p a))).length = l.length := by
  simp [← List.countP_eq_length_filter, l.length_eq_countP_add_countP p]

/-- C10.  In `calculateCompletionRate` the two percentages are rounded
independently, so they can fail to sum to 100 — witnessed by 1 completed
record out of 8 (13% + 88% = 101) — even though the raw counts always
satisfy `completed + pending = total`. -/
theorem completionRate_rounding_mismatch :
    (∀ (todos : List Todo),
      (calculateCompletionRate todos none).completed +
        (calculateCompletionRate todos none).pending =
        (calculateCompletionRate todos none).total) ∧
    ((calculateCompletionRate
        ({ id := "1", title := "a", completed := true, createTime := 0 } ::
          (List.range 7).map (fun i =>
            { id := toString i, title := "b", completed := false, createTime := 0 }))
        none).completionRate = 13 ∧
     (calculateCompletionRate
        ({ id := "1", title := "a", completed := true, createTime := 0 } ::
          (List.range 7).map (fun i =>
            { id := toString i, title := "b", completed := false, createTime := 0 }))
        none).pendingRate = 88 ∧
     (13 : Int) + 88 ≠ 100) := by
  constructor
  · intro todos
    unfold calculateCompletionRate
    by_cases h : todos.length = 0
    · simp [h]
    · have hle := List.length_filter_le (fun t : Todo => t.completed) todos
      simp only [h, if_false]
      omega
  · refine ⟨?_, ?_, by decide⟩ <;> with_unfolding_all decide

/-- Bounds for one guarded, capped score contribution. -/
theorem guarded_min_bounds (c : Prop) [Decidable c] (x cap : ℚ)
    (hx : c → 0 ≤ x) (hcap : 0 ≤ cap) :
    0 ≤ (if c then min x cap else 0) ∧ (if c then min x cap else 0) ≤ cap := by
  split
  · next h => exact ⟨le_min (hx h) hcap, min_le_right _ _⟩
  · exact ⟨le_refl 0, hcap⟩

/-- A guarded capped ratio contribution equals its unguarded form, since
`q / 0 = 0` in `ℚ`. -/
theorem guarded_div_eq (a b : Nat) (c : ℚ) (hc : 0 ≤ c) :
    (if 0 < b then min ((a : ℚ) / (b : ℚ) * c) c else 0) =
      min ((a : ℚ) / (b : ℚ) * c) c := by
  split
  · rfl
  · next h =>
    have hb : b = 0 := by omega
    simp [hb, min_eq_left hc]

/-- C3.  For every record collection, the procrastination score is the sum
of the four capped sub-scores — delayed ratio × 30 capped at 30, long-term
ratio (among delayed) × 25 capped at 25, very-long-term ratio × 25 capped
at 25, and `(avgCompletionDays − 7) × 2` capped at 20 applied only when the
average exceeds 7 — hence the score always lies in `[0, 100]`, and the
level is `low` below 20, `moderate` below 40, `high` below 70, and
`very_high` at 70 or above.  (When a denominator count is zero the code
skips the contribution; the stated formula agrees, as `q / 0 = 0` in `ℚ`.) -/
theorem procrastination_score_capped_sum (todos : List Todo) (now : Int) :
    let m := calculateProcrastinationMetrics todos now
    let s := procScore ⟨todos.length, m.delayedTasks, m.longTermDelayed,
      m.veryLongTermDelayed, m.avgCompletionDays⟩
    s = min ((m.delayedTasks : ℚ) / (todos.length : ℚ) * 30) 30 +
        min ((m.longTermDelayed : ℚ) / (m.delayedTasks : ℚ) * 25) 25 +
        min ((m.veryLongTermDelayed : ℚ) / (m.delayedTasks : ℚ) * 25) 25 +
        (if 7 < m.avgCompletionDays then min ((m.avgCompletionDays - 7) * 2) 20 else 0) ∧
    0 ≤ s ∧ s ≤ 100 ∧
    m.procrastinationLevel =
      (if s < 20 then "low" else if s < 40 then "moderate"
       else if s < 70 then "high" else "very_high") := by
  intro m s
  have hs : s = (if 0 < todos.length then min ((m.delayedTasks : ℚ) / (todos.length : ℚ) * 30) 30 else 0) +
      (if 0 < m.delayedTasks then min ((m.longTermDelayed : ℚ) / (m.delayedTasks : ℚ) * 25) 25 else 0) +
      (if 0 < m.delayedTasks then min ((m.veryLongTermDelayed : ℚ) / (m.delayedTasks : ℚ) * 25) 25 else 0) +
      (if 7 < m.avgCompletionDays then min ((m.avgCompletionDays - 7) * 2) 20 else 0) := rfl
  have hdecomp : s = min ((m.delayedTasks : ℚ) / (todos.length : ℚ) * 30) 30 +
      min ((m.longTermDelayed : ℚ) / (m.delayedTasks : ℚ) * 25) 25 +
      min ((m.veryLongTermDelayed : ℚ) / (m.delayedTasks : ℚ) * 25) 25 +
      (if 7 < m.avgCompletionDays then min ((m.avgCompletionDays - 7) * 2) 20 else 0) := by
    rw [hs, guarded_div_eq _ _ _ (by norm_num), guarded_div_eq _ _ _ (by norm_num),
      guarded_div_eq _ _ _ (by norm_num)]
  have hb1 := guarded_min_bounds (0 < todos.length)
    ((m.delayedTasks : ℚ) / (todos.length : ℚ) * 30) 30 (fun _ => by positivity) (by norm_num)
  have hb2 := guarded_min_bounds (0 < m.delayedTasks)
    ((m.longTermDelayed : ℚ) / (m.delayedTasks : ℚ) * 25) 25 (fun _ => by positivity) (by norm_num)
  have hb3 := guarded_min_bounds (0 < m.delayedTasks)
    ((m.veryLongTermDelayed : ℚ) / (m.delayedTasks : ℚ) * 25) 25 (fun _ => by positivity) (by norm_num)
  have hb4 := guarded_min_bounds (7 < m.avgCompletionDays)
    ((m.avgCompletionDays - 7) * 2) 20 (fun h => by nlinarith) (by norm_num)
  refine ⟨hdecomp, ?_, ?_, ?_⟩
  · rw [hs]; linarith [hb1.1, hb2.1, hb3.1, hb4.1]
  · rw [hs]; linarith [hb1.2, hb2.2, hb3.2, hb4.2]
  · rfl

/-- C2.  On the empty record collection, `analyzeTaskPatterns` (the
`taskPatterns` sub-analysis of `calculatePersonalizedInsights`) divides
`0 / 0` and returns NaN for both the average title length and the
description-usage percentage — contradicting the requirement that every
Metrics Calculator function return NaN-free zero/neutral results on empty
input.  (Its modal creation hour is JavaScript `null`.) -/
theorem analyzeTaskPatterns_empty_NaN :
    (analyzeTaskPatterns []).avgTitleLength = JSNum.nan ∧
    (analyzeTaskPatterns []).descriptionUsage = JSNum.nan ∧
    (analyzeTaskPatterns []).peakCreationHour = none := by
  refine ⟨?_, ?_, ?_⟩ <;> with_unfolding_all decide

/-- C6.  Bucket labels: because `formatDate` has no `MM/DD` or `YYYY-MM`
case, the `day` and `month` buckets are labelled with the full
`toISOString()` fallback instead of the documented short forms; only the
`week` label (`W<n>`) comes out as documented. -/
theorem timePeriodStats_labels_are_ISO_strings :
    (calculateTimePeriodStats [] "day" 1 nowOct12).map (List.map PeriodStat.label) =
      .ok ["2026-10-12T00:00:00.000Z"] ∧
    (calculateTimePeriodStats [] "month" 1 nowOct12).map (List.map PeriodStat.label) =
      .ok ["2026-10-01T00:00:00.000Z"] ∧
    (calculateTimePeriodStats [] "week" 1 nowOct12).map (List.map PeriodStat.label) =
      .ok ["W42"] := by
  refine ⟨?_, ?_, ?_⟩ <;> with_unfolding_all rfl

/-- C1.  `generateCacheKey` is not the content fingerprint the cache
contract needs: it truncates `JSON.stringify({todos, options})` to 50
characters, so two distinct record sets of the same length fingerprint
identically at the same instant; and it embeds `Date.now()` in the key, so
the same input one millisecond later produces a different key — the
lookup in `generateAnalysisReport` therefore misses and recomputes even
within the 5-minute time-to-live window. -/
theorem cacheKey_not_a_fingerprint :
    todosA ≠ todosB ∧ todosA.length = todosB.length ∧
    generateCacheKey "fullReport" (fullReportRequest todosA (Json.obj .nil)) 1760227200000 =
      generateCacheKey "fullReport" (fullReportRequest todosB (Json.obj .nil)) 1760227200000 ∧
    generateCacheKey "fullReport" (fullReportRequest todosA (Json.obj .nil)) 1760227200000 ≠
      generateCacheKey "fullReport" (fullReportRequest todosA (Json.obj .nil)) 1760227200001 := by
  refine ⟨by decide, rfl, by with_unfolding_all rfl, by decide⟩

/-- The `day` branch of one `calculateTimePeriodStats` bucket: its window
is the calendar day `i` days before `now`. -/
theorem mkPeriodBucket_day (todos : List Todo) (now : Int) (i : Nat) :
    (mkPeriodBucket todos "day" now i).startDate = getStartOfDay now - (i : Int) * dayMs ∧
    (mkPeriodBucket todos "day" now i).stopDate =
      getStartOfDay now - (i : Int) * dayMs + (dayMs - 1) := by
  unfold mkPeriodBucket
  simp only [if_pos rfl]
  constructor
  · exact getStartOfDay_sub_mul now i
  · show getEndOfDay (getStartOfDay (now - (i : Int) * dayMs)) = _
    unfold getEndOfDay
    rw [getStartOfDay_idem, getStartOfDay_sub_mul]
    ring

/-- C5.  `calculateTimePeriodStats(records, 'day', 7)` returns exactly 7
buckets, oldest first: bucket `j` covers the calendar day `6 − j` days
before today (so bucket 6 is today), each window running from 00:00:00.000
to 23:59:59.999 of its day; the windows are pairwise non-overlapping and
contiguous (`stop + 1 = next start`), covering the 7 consecutive calendar
days ending today. -/
theorem timePeriodStats_day7_buckets (todos : List Todo) (now : Int) :
    ∃ ps : List PeriodStat,
      calculateTimePeriodStats todos "day" 7 now = .ok ps ∧
      ps.length = 7 ∧
      (∀ j (hj : j < ps.length),
        (ps.get ⟨j, hj⟩).startDate = getStartOfDay now - ((6 : Int) - (j : Int)) * dayMs ∧
        (ps.get ⟨j, hj⟩).stopDate =
          getStartOfDay now - ((6 : Int) - (j : Int)) * dayMs + (dayMs - 1)) ∧
      (∀ i j (hi : i < ps.length) (hj : j < ps.length), i < j →
        (ps.get ⟨i, hi⟩).stopDate < (ps.get ⟨j, hj⟩).startDate) ∧
      (∀ j (hj : j + 1 < ps.length),
        (ps.get ⟨j, Nat.lt_of_succ_lt hj⟩).stopDate + 1 = (ps.get ⟨j + 1, hj⟩).startDate) := by
  refine ⟨((List.range 7).map (mkPeriodBucket todos "day" now)).reverse, ?_, rfl, ?_, ?_, ?_⟩
  case _ =>
    unfold calculateTimePeriodStats
    simp
  all_goals {
    have H : ∀ (j : Nat) (hj : j < (((List.range 7).map (mkPeriodBucket todos "day" now)).reverse).length),
        ((((List.range 7).map (mkPeriodBucket todos "day" now)).reverse).get ⟨j, hj⟩).startDate =
          getStartOfDay now - ((6 : Int) - (j : Int)) * dayMs ∧
        ((((List.range 7).map (mkPeriodBucket todos "day" now)).reverse).get ⟨j, hj⟩).stopDate =
          getStartOfDay now - ((6 : Int) - (j : Int)) * dayMs + (dayMs - 1) := by
      intro j hj
      have hj7 : j < 7 := by simpa using hj
      have hfm : ∀ i : Nat, (mkPeriodBucket todos "day" now i).startDate =
          getStartOfDay now - (i : Int) * dayMs := fun i => (mkPeriodBucket_day todos now i).1
      have hfe : ∀ i : Nat, (mkPeriodBucket todos "day" now i).stopDate =
          getStartOfDay now - (i : Int) * dayMs + (dayMs - 1) := fun i => (mkPeriodBucket_day todos now i).2
      interval_cases j <;> exact ⟨by simp [List.get, hfm], by simp [List.get, hfe]⟩
    first
    | {
        intro i j hi hj hij
        obtain ⟨hsi, hei⟩ := H i hi
        obtain ⟨hsj, hej⟩ := H j hj
        rw [hei, hsj]
        have hc : (i : Int) < (j : Int) := by exact_mod_cast hij
        have hd : dayMs = 86400000 := rfl
        rw [hd] at *
        linarith
      }
    | {
        intro j hj
        obtain ⟨hsi, hei⟩ := H j (Nat.lt_of_succ_lt hj)
        obtain ⟨hsj, hej⟩ := H (j + 1) hj
        rw [hei, hsj]
        push_cast
        ring
      }
    | exact H
  }

/-- C7.  In every 10-record scenario with 7 completed records created
(and updated) within the last 2 days and 3 pending records created
exactly 10 days before now: the completion rate is 70, all 3 pending
records count as delayed and long-term delayed (and none as
very-long-term), and the procrastination level is not `low` (it computes
to `moderate`: sub-scores 9 + 25 + 0 + 0 = 34). -/
theorem scenario_7of10 (todos : List Todo) (now : Int)
    (h10 : todos.length = 10)
    (h7 : (todos.filter (fun t => t.completed)).length = 7)
    (hC : ∀ t ∈ todos, t.completed = true → completedWithin2Days now t = true)
    (hP : ∀ t ∈ todos, t.completed = false → t.createTime = now - 10 * dayMs) :
    (calculateCompletionRate todos none).completionRate = 70 ∧
    (calculateProcrastinationMetrics todos now).delayedTasks = 3 ∧
    (calculateProcrastinationMetrics todos now).longTermDelayed = 3 ∧
    (calculateProcrastinationMetrics todos now).procrastinationLevel ≠ "low" := by
  -- facts about the pending records
  have hplen : (todos.filter (fun t => !t.completed)).length = 3 := by
    have := length_filter_add_length_filter_not (fun t : Todo => t.completed) todos
    omega
  have hpend10 : ∀ t ∈ todos.filter (fun t : Todo => !t.completed),
      delayDaysOf now t = 10 := by
    intro t ht
    obtain ⟨htmem, htp⟩ := List.mem_filter.mp ht
    have hcf : t.completed = false := by
      cases hcomp : t.completed
      · rfl
      · rw [hcomp] at htp; simp at htp
    have hct := hP t htmem hcf
    unfold delayDaysOf getDaysDifference
    rw [hct]
    have harg : now - (now - 10 * dayMs) = 864000000 := by unfold dayMs; ring
    rw [harg]
    norm_num
  have hdelayed : (todos.filter (fun t => !t.completed)).filter
      (fun t => 1 < delayDaysOf now t) = todos.filter (fun t => !t.completed) := by
    apply List.filter_eq_self.mpr
    intro t ht
    rw [hpend10 t ht]
    decide
  have hlong : (todos.filter (fun t => !t.completed)).filter
      (fun t => 7 < delayDaysOf now t) = todos.filter (fun t => !t.completed) := by
    apply List.filter_eq_self.mpr
    intro t ht
    rw [hpend10 t ht]
    decide
  have hvlong : (todos.filter (fun t => !t.completed)).filter
      (fun t => 30 < delayDaysOf now t) = [] := by
    apply List.filter_eq_nil_iff.mpr
    intro t ht
    rw [hpend10 t ht]
    decide
  -- facts about the completed records
  have hcomp_eq : todos.filter (fun t : Todo => t.completed && t.updateTime.isSome) =
      todos.filter (fun t : Todo => t.completed) := by
    apply List.filter_congr
    intro t htmem
    cases hcomp : t.completed
    · simp
    · have := hC t htmem hcomp
      unfold completedWithin2Days at this
      cases hu : t.updateTime with
      | none => rw [hu] at this; simp at this
      | some u => simp [hu]
  have hcomplen : (todos.filter (fun t : Todo => t.completed && t.updateTime.isSome)).length = 7 := by
    rw [hcomp_eq, h7]
  have hcdays : ∀ t ∈ todos.filter (fun t : Todo => t.completed && t.updateTime.isSome),
      getDaysDifference t.createTime (t.updateTime.getD 0) ≤ 2 := by
    intro t ht
    obtain ⟨htmem, htp⟩ := List.mem_filter.mp ht
    have hcomp : t.completed = true := by
      cases hcomp : t.completed
      · rw [hcomp] at htp; simp at htp
      · rfl
    have hcw := hC t htmem hcomp
    unfold completedWithin2Days at hcw
    cases hu : t.updateTime with
    | none => rw [hu] at hcw; simp at hcw
    | some u =>
      rw [hu] at hcw
      simp only [Bool.and_eq_true, decide_eq_true_eq] at hcw
      obtain ⟨⟨h1, h2⟩, h3⟩ := hcw
      unfold getDaysDifference
      simp only [hu, Option.getD_some]
      have hb : (u - t.createTime).natAbs ≤ 172800000 := by
        have hd : dayMs = 86400000 := rfl
        rw [hd] at h1
        omega
      omega
-- the average completion latency is at most 2 days
  have hsum : ((todos.filter (fun t : Todo => t.completed && t.updateTime.isSome)).map
      (fun t => getDaysDifference t.createTime (t.updateTime.getD 0))).sum ≤ 14 := by
    have hle := List.sum_le_card_nsmul
      ((todos.filter (fun t : Todo => t.completed && t.updateTime.isSome)).map
        (fun t => getDaysDifference t.createTime (t.updateTime.getD 0))) 2 ?_
    · simpa [hcomplen] using hle
    · intro x hx
      obtain ⟨t, ht, rfl⟩ := List.mem_map.mp hx
      exact hcdays t ht
  have havg : (if ((todos.filter (fun t : Todo => t.completed && t.updateTime.isSome)).length = 0)
      then (0 : ℚ)
      else round1 ((((todos.filter (fun t : Todo => t.completed && t.updateTime.isSome)).map
        (fun t => getDaysDifference t.createTime (t.updateTime.getD 0))).sum : ℚ) /
        ((todos.filter (fun t : Todo => t.completed && t.updateTime.isSome)).length : ℚ))) ≤ 2 := by
    rw [if_neg (by omega)]
    rw [hcomplen]
    set S : Nat := ((todos.filter (fun t : Todo => t.completed && t.updateTime.isSome)).map
        (fun t => getDaysDifference t.createTime (t.updateTime.getD 0))).sum with hS
    have hq : ((S : ℚ) / 7) * 10 + 1 / 2 ≤ 41 / 2 := by
      have : (S : ℚ) ≤ 14 := by exact_mod_cast hsum
      linarith
    have hfl : jsRound ((S : ℚ) / 7 * 10) ≤ 20 := by
      unfold jsRound
      have h1 : ((⌊(S : ℚ) / 7 * 10 + 1 / 2⌋ : ℚ)) ≤ 41 / 2 := le_trans (Int.floor_le _) hq
      have h1' : ((⌊(S : ℚ) / 7 * 10 + 1 / 2⌋ : ℚ)) < 21 := lt_of_le_of_lt h1 (by norm_num)
      have h2 : ⌊(S : ℚ) / 7 * 10 + 1 / 2⌋ < (21 : Int) := by exact_mod_cast h1'
      omega
    unfold round1
    have : ((jsRound ((S : ℚ) / 7 * 10) : ℚ)) ≤ 20 := by exact_mod_cast hfl
    linarith
  have hdT : ((todos.filter (fun t : Todo => !t.completed)).filter
      (fun t => 1 < delayDaysOf now t)).length = 3 := by rw [hdelayed]; exact hplen
  have hlT : (((todos.filter (fun t : Todo => !t.completed)).filter
      (fun t => 1 < delayDaysOf now t)).filter (fun t => 7 < delayDaysOf now t)).length = 3 := by
    rw [hdelayed, hlong]; exact hplen
  have hvT : (((todos.filter (fun t : Todo => !t.completed)).filter
      (fun t => 1 < delayDaysOf now t)).filter (fun t => 30 < delayDaysOf now t)).length = 0 := by
    rw [hdelayed, hvlong]; rfl
  refine ⟨?_, hdT, hlT, ?_⟩
  · simp only [calculateCompletionRate]
    rw [if_neg (show ¬(todos.length = 0) by omega)]
    simp only [h7, h10]
    show jsRound ((7 : ℚ) / (10 : ℚ) * 100) = 70
    have : (7 : ℚ) / (10 : ℚ) * 100 = 70 := by norm_num
    rw [this]
    unfold jsRound
    rw [Int.floor_eq_iff]
    constructor <;> norm_num
  · show calculateProcrastinationLevel
      ⟨todos.length,
        ((todos.filter (fun t : Todo => !t.completed)).filter
          (fun t => 1 < delayDaysOf now t)).length,
        (((todos.filter (fun t : Todo => !t.completed)).filter
          (fun t => 1 < delayDaysOf now t)).filter (fun t => 7 < delayDaysOf now t)).length,
        (((todos.filter (fun t : Todo => !t.completed)).filter
          (fun t => 1 < delayDaysOf now t)).filter (fun t => 30 < delayDaysOf now t)).length,
        (if ((todos.filter (fun t : Todo => t.completed && t.updateTime.isSome)).length = 0)
          then (0 : ℚ)
          else round1 ((((todos.filter (fun t : Todo => t.completed && t.updateTime.isSome)).map
            (fun t => getDaysDifference t.createTime (t.updateTime.getD 0))).sum : ℚ) /
            ((todos.filter (fun t : Todo => t.completed && t.updateTime.isSome)).length : ℚ)))⟩
      ≠ "low"
    rw [hdT, hlT, hvT, h10]
    unfold calculateProcrastinationLevel procScore
    dsimp only
    rw [if_neg (show ¬(7 : ℚ) <
      (if ((todos.filter (fun t : Todo => t.completed && t.updateTime.isSome)).length = 0)
        then (0 : ℚ)
        else round1 ((((todos.filter (fun t : Todo => t.completed && t.updateTime.isSome)).map
          (fun t => getDaysDifference t.createTime (t.updateTime.getD 0))).sum : ℚ) /
          ((todos.filter (fun t : Todo => t.completed && t.updateTime.isSome)).length : ℚ)))
      by intro hcon; linarith)]
    norm_num
    decide

/-- Witness for `scenario_7of10` at a concrete record collection. -/
theorem scenario_7of10_witness :
    (calculateCompletionRate scenarioTodos none).completionRate = 70 ∧
    (calculateProcrastinationMetrics scenarioTodos nowOct12).delayedTasks = 3 ∧
    (calculateProcrastinationMetrics scenarioTodos nowOct12).longTermDelayed = 3 ∧
    (calculateProcrastinationMetrics scenarioTodos nowOct12).procrastinationLevel ≠ "low" :=
  scenario_7of10 scenarioTodos nowOct12 (by decide) (by decide) (by decide) (by decide)

theorem le_foldr_max (l : List Nat) (x : Nat) (hx : x ∈ l) : x ≤ l.foldr max 0 := by
  induction l with
  | nil => cases hx
  | cons a l ih =>
    rcases List.mem_cons.mp hx with rfl | hmem
    · exact le_max_left _ _
    · exact le_trans (ih hmem) (le_max_right _ _)

theorem foldr_max_le (l : List Nat) (b : Nat) (h : ∀ x ∈ l, x ≤ b) : l.foldr max 0 ≤ b := by
  induction l with
  | nil => exact Nat.zero_le b
  | cons a l ih =>
    exact max_le (h a (List.mem_cons_self a l)) (ih (fun x hx => h x (List.mem_cons_of_mem a hx)))

theorem count_le_maxFreq (p : List Int) (v : Int) (hv : v ∈ p) : p.count v ≤ maxFreq p :=
  le_foldr_max _ _ (List.mem_map.mpr ⟨v, hv, rfl⟩)

theorem count_le_maxFreq' (p : List Int) (v : Int) : p.count v ≤ maxFreq p := by
  by_cases hv : v ∈ p
  · exact count_le_maxFreq p v hv
  · rw [List.count_eq_zero_of_not_mem hv]; exact Nat.zero_le _

theorem maxFreq_snoc (p : List Int) (x : Int) :
    maxFreq (p ++ [x]) = max (maxFreq p) (p.count x + 1) := by
  apply le_antisymm
  · apply foldr_max_le
    intro y hy
    obtain ⟨w, hw, rfl⟩ := List.mem_map.mp hy
    by_cases hwx : w = x
    · rw [hwx, List.count_append]
      have h1 : List.count x [x] = 1 := by simp
      rw [h1]
      exact le_max_right _ _
    · have hwp : w ∈ p := by
        rcases List.mem_append.mp hw with h | h
        · exact h
        · exfalso; exact hwx (List.mem_singleton.mp h)
      rw [List.count_append]
      have : [x].count w = 0 := by simp [List.count_singleton, hwx]
      rw [this, Nat.add_zero]
      exact le_trans (count_le_maxFreq p w hwp) (le_max_left _ _)
  · apply max_le
    · apply foldr_max_le
      intro y hy
      obtain ⟨w, hw, rfl⟩ := List.mem_map.mp hy
      calc p.count w ≤ (p ++ [x]).count w := by rw [List.count_append]; omega
        _ ≤ maxFreq (p ++ [x]) :=
          count_le_maxFreq _ _ (List.mem_append.mpr (Or.inl hw))
    · have hx : (p ++ [x]).count x = p.count x + 1 := by
        rw [List.count_append]; simp [List.count_singleton]
      rw [← hx]
      exact count_le_maxFreq _ _ (List.mem_append.mpr (Or.inr (List.mem_singleton.mpr rfl)))

/-- `fmfStep` written out without local lets. -/
theorem fmfStep_eq (s : FMFState) (x : Int) :
    fmfStep s x = if s.maxCount < s.freq x + 1
      then ⟨fun v => if v = x then s.freq x + 1 else s.freq v, s.freq x + 1, some x⟩
      else ⟨fun v => if v = x then s.freq x + 1 else s.freq v, s.maxCount, s.mostFrequent⟩ := rfl

theorem fmf_invariant (p : List Int) :
    (∀ v, (p.foldl fmfStep ⟨fun _ => 0, 0, none⟩).freq v = p.count v) ∧
    (p.foldl fmfStep ⟨fun _ => 0, 0, none⟩).maxCount = maxFreq p ∧
    AchieverProp p (p.foldl fmfStep ⟨fun _ => 0, 0, none⟩).mostFrequent := by
  induction p using List.reverseRecOn with
  | nil => exact ⟨fun v => rfl, rfl, rfl⟩
  | append_singleton p x ih =>
    obtain ⟨ihf, ihm, iha⟩ := ih
    have hfold : (p ++ [x]).foldl fmfStep ⟨fun _ => 0, 0, none⟩ =
        fmfStep (p.foldl fmfStep ⟨fun _ => 0, 0, none⟩) x := by
      rw [List.foldl_append]
      rfl
    rw [hfold, fmfStep_eq, ihf x, ihm]
    by_cases hcase : maxFreq p < p.count x + 1
    · rw [if_pos hcase]
      refine ⟨?_, ?_, ?_⟩
      · intro v
        show (if v = x then p.count x + 1 else _) = _
        rw [List.count_append]
        by_cases hvx : v = x
        · rw [if_pos hvx, hvx]
          simp
        · rw [if_neg hvx, ihf v]
          simp [List.count_singleton, hvx]
      · show p.count x + 1 = maxFreq (p ++ [x])
        rw [maxFreq_snoc]
        exact (max_eq_right (Nat.le_of_lt hcase)).symm
      · show AchieverProp (p ++ [x]) (some x)
        refine ⟨p.length, by simp, by simp, ?_, ?_⟩
        · have hfull : (p ++ [x]).take (p.length + 1) = p ++ [x] := by
            have hl : (p ++ [x]).length = p.length + 1 := by simp
            rw [← hl, List.take_length]
          rw [hfull, maxFreq_snoc, List.count_append]
          have h1 : List.count x [x] = 1 := by simp
          rw [h1]
          exact (max_eq_right (Nat.le_of_lt hcase)).symm
        · intro j hj hji
          have hjp : j < p.length := by simpa using hji
          have htk : (p ++ [x]).take (j + 1) = p.take (j + 1) := by
            rw [List.take_append_eq_append_take]
            simp [Nat.sub_eq_zero_of_le hjp]
          have hget : (p ++ [x]).get ⟨j, hj⟩ = p.get ⟨j, hjp⟩ := by
            rw [List.get_append]
          rw [htk, hget, maxFreq_snoc]
          have h1 : (p.take (j + 1)).count (p.get ⟨j, hjp⟩) ≤ p.count (p.get ⟨j, hjp⟩) :=
            (List.take_sublist _ _).count_le _
          have h2 : p.count (p.get ⟨j, hjp⟩) ≤ maxFreq p :=
            count_le_maxFreq p _ (p.get_mem _ _)
          have h3 : maxFreq p < max (maxFreq p) (p.count x + 1) := by
            rw [max_eq_right (Nat.le_of_lt hcase)]
            exact hcase
          omega
    · rw [if_neg hcase]
      have hle : p.count x + 1 ≤ maxFreq p := by omega
      have hmf : maxFreq (p ++ [x]) = maxFreq p := by
        rw [maxFreq_snoc]
        exact max_eq_left hle
      refine ⟨?_, ?_, ?_⟩
      · intro v
        show (if v = x then p.count x + 1 else _) = _
        rw [List.count_append]
        by_cases hvx : v = x
        · rw [if_pos hvx, hvx]
          simp
        · rw [if_neg hvx, ihf v]
          simp [List.count_singleton, hvx]
      · show maxFreq p = maxFreq (p ++ [x])
        rw [hmf]
      · show AchieverProp (p ++ [x]) (p.foldl fmfStep ⟨fun _ => 0, 0, none⟩).mostFrequent
        cases hmo : (p.foldl fmfStep ⟨fun _ => 0, 0, none⟩).mostFrequent with
        | none =>
          rw [hmo] at iha
          have hp : p = [] := iha
          exfalso
          rw [hp] at hle
          simp [maxFreq] at hle
        | some m =>
          rw [hmo] at iha
          obtain ⟨i, hi, hget, hcnt, hprev⟩ := iha
          have hi' : i < (p ++ [x]).length := by
            simp only [List.length_append, List.length_singleton]
            omega
          refine ⟨i, hi', ?_, ?_, ?_⟩
          · rw [List.get_append _ hi]
            exact hget
          · have htk : (p ++ [x]).take (i + 1) = p.take (i + 1) := by
              rw [List.take_append_eq_append_take]
              simp [Nat.sub_eq_zero_of_le hi]
            rw [htk, hmf]
            exact hcnt
          · intro j hj hji
            have hjp : j < p.length := by omega
            have htk : (p ++ [x]).take (j + 1) = p.take (j + 1) := by
              rw [List.take_append_eq_append_take]
              simp [Nat.sub_eq_zero_of_le hjp]
            have hget' : (p ++ [x]).get ⟨j, hj⟩ = p.get ⟨j, hjp⟩ := by
              rw [List.get_append]
            rw [htk, hget', hmf]
            exact hprev j hjp hji

/-- C8 (amended).  For every non-empty record collection the reported
`peakCreationHour` is a creation hour of maximal frequency; when several
hours tie for the highest frequency, the winner is not the first-seen
hour but the hour whose running count is the first to reach the final
maximum (`AchieverProp`): its count reaches the maximum at some position
`i`, and at every earlier position the running count of the element there
is still below the maximum. -/
theorem peakCreationHour_first_to_reach_mode (todos : List Todo) (h : todos ≠ []) :
    ∃ m, (analyzeTaskPatterns todos).peakCreationHour = some m ∧
      m ∈ todos.map (fun t => getHours t.createTime) ∧
      (∀ v, (todos.map (fun t => getHours t.createTime)).count v ≤
        (todos.map (fun t => getHours t.createTime)).count m) ∧
      AchieverProp (todos.map (fun t => getHours t.createTime)) (some m) := by
  have hne : todos.map (fun t => getHours t.createTime) ≠ [] := by
    simpa using h
  obtain ⟨hf, hm, ha⟩ := fmf_invariant (todos.map (fun t => getHours t.createTime))
  cases hmo : ((todos.map (fun t => getHours t.createTime)).foldl fmfStep
      ⟨fun _ => 0, 0, none⟩).mostFrequent with
  | none =>
    rw [hmo] at ha
    exact absurd ha hne
  | some m =>
    rw [hmo] at ha
    obtain ⟨i, hi, hget, hcnt, hprev⟩ := ha
    have hmem : m ∈ todos.map (fun t => getHours t.createTime) := by
      rw [← hget]
      exact List.get_mem _ _ _
    have hcm : (todos.map (fun t => getHours t.createTime)).count m =
        maxFreq (todos.map (fun t => getHours t.createTime)) := by
      have h1 : ((todos.map (fun t => getHours t.createTime)).take (i + 1)).count m ≤
          (todos.map (fun t => getHours t.createTime)).count m :=
        (List.take_sublist _ _).count_le _
      have h2 := count_le_maxFreq' (todos.map (fun t => getHours t.createTime)) m
      omega
    refine ⟨m, hmo, hmem, ?_, ⟨i, hi, hget, hcnt, hprev⟩⟩
    intro v
    rw [hcm]
    exact count_le_maxFreq' _ v

/-- Witness for `peakCreationHour_first_to_reach_mode` on a one-record
collection. -/
theorem peakCreationHour_first_to_reach_mode_witness :
    ∃ m, (analyzeTaskPatterns [soloTodo]).peakCreationHour = some m ∧
      m ∈ [soloTodo].map (fun t => getHours t.createTime) ∧
      (∀ v, ([soloTodo].map (fun t => getHours t.createTime)).count v ≤
        ([soloTodo].map (fun t => getHours t.createTime)).count m) ∧
      AchieverProp ([soloTodo].map (fun t => getHours t.createTime)) (some m) :=
  peakCreationHour_first_to_reach_mode [soloTodo] (by decide)

/-- C8 (counterexample to the claim as stated).  On records with creation
hours `[2, 1, 1, 2]`, hours 2 and 1 tie for the highest frequency and the
first-seen tied hour (earliest in input order) is 2, yet the analysis
reports 1: the first-seen rule does not describe the code. -/
theorem peakCreationHour_tie_not_first_seen :
    todos4.map (fun t => getHours t.createTime) = [2, 1, 1, 2] ∧
    (analyzeTaskPatterns todos4).peakCreationHour = some 1 ∧
    ([2, 1, 1, 2] : List Int).count 2 = ([2, 1, 1, 2] : List Int).count 1 ∧
    (∀ v, ([2, 1, 1, 2] : List Int).count v ≤ ([2, 1, 1, 2] : List Int).count 2) ∧
    ([2, 1, 1, 2] : List Int).indexOf 2 < ([2, 1, 1, 2] : List Int).indexOf 1 ∧
    (1 : Int) ≠ 2 := by
  refine ⟨by decide, by decide, by decide, ?_, by decide, by decide⟩
  intro v
  by_cases h1 : v = 1
  · rw [h1]; decide
  · by_cases h2 : v = 2
    · rw [h2]
    · have : ([2, 1, 1, 2] : List Int).count v = 0 := by
        apply List.count_eq_zero_of_not_mem
        intro hmem
        rcases List.mem_cons.mp hmem with h | h
        · exact h2 h
        · rcases List.mem_cons.mp h with h | h
          · exact h1 h
          · rcases List.mem_cons.mp h with h | h
            · exact h1 h
            · rcases List.mem_cons.mp h with h | h
              · exact h2 h
              · cases h
      rw [this]
      decide

/-! ## Digit-printing lemmas -/

theorem digitChar_toNat (d : Nat) (h : d < 10) : (digitChar d).toNat = 48 + d := by
  unfold digitChar Char.ofNat
  rw [dif_pos (by left; omega : Nat.isValidChar (48 + d))]
  show (BitVec.ofNatLt (48 + d) _).toNat = 48 + d
  exact BitVec.toNat_ofNatLt _ _

theorem char_isDigit_iff (c : Char) : c.isDigit = true ↔ 48 ≤ c.toNat ∧ c.toNat ≤ 57 := by
  unfold Char.isDigit
  simp only [Bool.and_eq_true, decide_eq_true_eq, Char.le_def, UInt32.le_def, BitVec.le_def]
  constructor
  · rintro ⟨h1, h2⟩; exact ⟨h1, h2⟩
  · rintro ⟨h1, h2⟩; exact ⟨h1, h2⟩

theorem digitChar_isDigit (d : Nat) (h : d < 10) : (digitChar d).isDigit = true :=
  (char_isDigit_iff _).mpr (by rw [digitChar_toNat d h]; omega)

theorem natDigitsAux_irrel (n : Nat) : ∀ f f', n < f → n < f' →
    natDigitsAux f n = natDigitsAux f' n := by
  induction n using Nat.strong_induction_on with
  | _ n ih =>
    intro f f' hf hf'
    match f, f' with
    | fa + 1, fb + 1 =>
      show natDigitsAux (fa + 1) n = natDigitsAux (fb + 1) n
      unfold natDigitsAux
      by_cases h10 : n < 10
      · rw [if_pos h10, if_pos h10]
      · rw [if_neg h10, if_neg h10]
        congr 1
        exact ih (n / 10) (by omega) fa fb (by omega) (by omega)

theorem natDigits_eq_aux (f n : Nat) (h : n < f) : natDigitsAux f n = natDigits n :=
  natDigitsAux_irrel n f (n + 1) h (Nat.lt_succ_self n)

theorem natDigits_small (n : Nat) (h : n < 10) : natDigits n = [digitChar n] := by
  unfold natDigits natDigitsAux
  rw [if_pos h]

theorem natDigits_large (n : Nat) (h : 10 ≤ n) :
    natDigits n = natDigits (n / 10) ++ [digitChar (n % 10)] := by
  show natDigitsAux (n + 1) n = _
  unfold natDigitsAux
  rw [if_neg (by omega)]
  congr 1
  exact natDigits_eq_aux n (n / 10) (by omega)

theorem natDigits_ne_nil (n : Nat) : natDigits n ≠ [] := by
  by_cases h : n < 10
  · rw [natDigits_small n h]; simp
  · rw [natDigits_large n (by omega)]; simp

theorem natDigits_all_digits (n : Nat) : ∀ c ∈ natDigits n, c.isDigit = true := by
  induction n using Nat.strong_induction_on with
  | _ n ih =>
    intro c hc
    by_cases h : n < 10
    · rw [natDigits_small n h] at hc
      rcases List.mem_singleton.mp hc with rfl
      exact digitChar_isDigit n h
    · rw [natDigits_large n (by omega)] at hc
      rcases List.mem_append.mp hc with hm | hm
      · exact ih (n / 10) (by omega) c hm
      · rcases List.mem_singleton.mp hm with rfl
        exact digitChar_isDigit (n % 10) (by omega)

theorem digitsVal_append_one (ds : List Char) (c : Char) :
    digitsVal (ds ++ [c]) = 10 * digitsVal ds + (c.toNat - 48) := by
  unfold digitsVal
  rw [List.foldl_append]
  show (ds.foldl _ 0) * 10 + (c.toNat - 48) = _
  ring

theorem digitsVal_natDigits (n : Nat) : digitsVal (natDigits n) = n := by
  induction n using Nat.strong_induction_on with
  | _ n ih =>
    by_cases h : n < 10
    · rw [natDigits_small n h]
      show 0 * 10 + ((digitChar n).toNat - 48) = n
      rw [digitChar_toNat n h]
      omega
    · rw [natDigits_large n (by omega), digitsVal_append_one,
        ih (n / 10) (by omega), digitChar_toNat (n % 10) (by omega)]
      omega

theorem natDigits_length_le (n k : Nat) (hk : 1 ≤ k) (h : n < 10 ^ k) :
    (natDigits n).length ≤ k := by
  induction k generalizing n with
  | zero => omega
  | succ k ih =>
    by_cases h10 : n < 10
    · rw [natDigits_small n h10]
      simp
    · have hk1 : 1 ≤ k := by
        by_contra hc
        have : k = 0 := by omega
        rw [this] at h
        simp at h
        omega
      rw [natDigits_large n (by omega)]
      rw [List.length_append]
      have := ih (n / 10) hk1 (by
        have : 10 ^ (k + 1) = 10 ^ k * 10 := by ring
        omega)
      simp
      omega

theorem digitsVal_replicate_zeros (z : Nat) (ds : List Char) :
    digitsVal (List.replicate z '0' ++ ds) = digitsVal ds := by
  induction z with
  | zero => rfl
  | succ z ih =>
    rw [List.replicate_succ, List.cons_append]
    show digitsVal (List.replicate z '0' ++ ds) = _
    exact ih

/-! ## Scanning lemmas -/

theorem takeWhile_append_all {p : Char → Bool} (xs ys : List Char)
    (h : ∀ x ∈ xs, p x = true) :
    (xs ++ ys).takeWhile p = xs ++ ys.takeWhile p := by
  induction xs with
  | nil => rfl
  | cons a l ih =>
    rw [List.cons_append, List.takeWhile_cons, if_pos (h a (List.mem_cons_self a l)),
      List.cons_append]
    rw [ih (fun x hx => h x (List.mem_cons_of_mem a hx))]

theorem dropWhile_append_all {p : Char → Bool} (xs ys : List Char)
    (h : ∀ x ∈ xs, p x = true) :
    (xs ++ ys).dropWhile p = ys.dropWhile p := by
  induction xs with
  | nil => rfl
  | cons a l ih =>
    rw [List.cons_append, List.dropWhile_cons, if_pos (h a (List.mem_cons_self a l))]
    exact ih (fun x hx => h x (List.mem_cons_of_mem a hx))

theorem takeWhile_cons_false {p : Char → Bool} (y : Char) (ys : List Char)
    (h : p y = false) : (y :: ys).takeWhile p = [] := by
  rw [List.takeWhile_cons, if_neg (by simp [h])]

theorem dropWhile_cons_false {p : Char → Bool} (y : Char) (ys : List Char)
    (h : p y = false) : (y :: ys).dropWhile p = y :: ys := by
  rw [List.dropWhile_cons, if_neg (by simp [h])]

theorem takeWhile_nil_or_head {p : Char → Bool} (ys : List Char)
    (h : ∀ c ∈ ys.take 1, p c = false) : ys.takeWhile p = [] := by
  cases ys with
  | nil => rfl
  | cons a l => exact takeWhile_cons_false a l (h a (by simp))

theorem dropWhile_nil_or_head {p : Char → Bool} (ys : List Char)
    (h : ∀ c ∈ ys.take 1, p c = false) : ys.dropWhile p = ys := by
  cases ys with
  | nil => rfl
  | cons a l => exact dropWhile_cons_false a l (h a (by simp))

theorem skipWs_cons (c : Char) (cs : List Char) :
    skipWs (c :: cs) = if isWsChar c = true then skipWs cs else c :: cs := rfl

theorem skipWs_append_ws (ws cs : List Char) (h : ∀ c ∈ ws, isWsChar c = true) :
    skipWs (ws ++ cs) = skipWs cs := by
  induction ws with
  | nil => rfl
  | cons a l ih =>
    rw [List.cons_append, skipWs_cons, if_pos (h a (List.mem_cons_self a l))]
    exact ih (fun c hc => h c (List.mem_cons_of_mem a hc))

theorem skipWs_cons_not (c : Char) (cs : List Char) (h : isWsChar c = false) :
    skipWs (c :: cs) = c :: cs := by
  rw [skipWs_cons, if_neg (by simp [h])]

theorem nlInd_all_ws (ind : Nat) : ∀ c ∈ nlInd ind, isWsChar c = true := by
  intro c hc
  unfold nlInd at hc
  rcases List.mem_cons.mp hc with rfl | hm
  · decide
  · rw [List.eq_of_mem_replicate hm]
    decide

/-- The head of the printed digits is a digit character. -/
theorem natDigits_head (n : Nat) : ∃ d ds, natDigits n = d :: ds ∧ d.isDigit = true := by
  cases hnd : natDigits n with
  | nil => exact absurd hnd (natDigits_ne_nil n)
  | cons d ds =>
    exact ⟨d, ds, rfl, natDigits_all_digits n d (hnd ▸ List.mem_cons_self d ds)⟩

/-- A digit character is none of the parser's structural characters. -/
theorem digit_ne_special (c : Char) (h : c.isDigit = true) :
    c ≠ 'n' ∧ c ≠ 't' ∧ c ≠ 'f' ∧ c ≠ '"' ∧ c ≠ '[' ∧ c ≠ lbrace ∧ c ≠ '-' ∧
    c ≠ '.' ∧ c ≠ ']' ∧ c ≠ ',' ∧ c ≠ rbrace ∧ c ≠ ':' ∧ isWsChar c = false := by
  obtain ⟨h1, h2⟩ := (char_isDigit_iff c).mp h
  refine ⟨?_, ?_, ?_, ?_, ?_, ?_, ?_, ?_, ?_, ?_, ?_, ?_, ?_⟩ <;>
    first
    | (intro hc; subst hc; revert h; decide)
    | (unfold isWsChar
       by_cases hsp : c = ' '
       · subst hsp; revert h; decide
       · by_cases hnl : c = '\n'
         · subst hnl; revert h; decide
         · by_cases htb : c = '\t'
           · subst htb; revert h; decide
           · by_cases hcr : c = '\r'
             · subst hcr; revert h; decide
             · simp [hsp, hnl, htb, hcr])

/-- All characters of a zero-padded digit run are digits. -/
theorem padZeros_all_digits (k : Nat) (n : Nat) :
    ∀ c ∈ padZeros k (natDigits n), c.isDigit = true := by
  intro c hc
  unfold padZeros at hc
  rcases List.mem_append.mp hc with hm | hm
  · rw [List.eq_of_mem_replicate hm]
    decide
  · exact natDigits_all_digits n c hm

/-- A zero-padded digit run is non-empty and keeps its value. -/
theorem padZeros_facts (K b : Nat) (hb : b < 10 ^ K) (hK : 1 ≤ K) :
    digitsVal (padZeros K (natDigits b)) = b ∧
    (padZeros K (natDigits b)).length = K ∧
    (padZeros K (natDigits b)).isEmpty = false := by
  have hL : (natDigits b).length ≤ K := natDigits_length_le b K hK hb
  have hL1 : 1 ≤ (natDigits b).length := by
    cases hnd : natDigits b with
    | nil => exact absurd hnd (natDigits_ne_nil b)
    | cons x l => simp
  refine ⟨?_, ?_, ?_⟩
  · unfold padZeros
    rw [digitsVal_replicate_zeros, digitsVal_natDigits]
  · unfold padZeros
    rw [List.length_append, List.length_replicate]
    omega
  · unfold padZeros
    cases hz : K - (natDigits b).length with
    | zero =>
      rw [List.replicate_zero, List.nil_append]
      cases hnd : natDigits b with
      | nil => exact absurd hnd (natDigits_ne_nil b)
      | cons x l => rfl
    | succ m => rw [List.replicate_succ]; rfl

/-- `parseNum` inverts `numChars` on well-formed rationals, for any
follower that does not begin with a digit or a dot. -/
theorem parseNum_print (q : ℚ) (hwf : wfNumQ q = true) (rest : List Char)
    (hr : ∀ c ∈ rest.take 1, c.isDigit = false ∧ c ≠ '.') :
    parseNum (numChars q ++ rest) = some (q, rest) := by
  have hrd : ∀ c ∈ rest.take 1, c.isDigit = false := fun c hc => (hr c hc).1
  have hdot : ¬(rest.take 1 = ['.']) := by
    cases hrest : rest with
    | nil => simp
    | cons a l =>
      intro hcon
      simp only [List.take_succ_cons, List.take_zero] at hcon
      have ha : a = '.' := by
        injection hcon
      exact (hr a (by rw [hrest]; simp)).2 ha
  unfold wfNumQ at hwf
  rcases Bool.or_eq_true_iff.mp hwf with hd1 | hdk
  · -- integer case: q.den = 1
    have hden : q.den = 1 := by simpa using hd1
    obtain ⟨d, ds, hnd, hdig⟩ := natDigits_head q.num.natAbs
    have hspec := digit_ne_special d hdig
    by_cases hneg : q < 0
    · -- negative integer: '-' then digits
      have hnc : numChars q = '-' :: natDigits q.num.natAbs := by
        unfold numChars
        rw [if_pos hneg, if_pos hden]
        rfl
      rw [hnc]
      unfold parseNum
      simp only [List.cons_append, List.take_succ_cons, List.take_zero, List.drop_succ_cons,
        List.drop_zero, decide_eq_true_eq, if_pos rfl, reduceIte]
      rw [takeWhile_append_all _ _ (natDigits_all_digits _),
        takeWhile_nil_or_head rest hrd, List.append_nil,
        dropWhile_append_all _ _ (natDigits_all_digits _),
        dropWhile_nil_or_head rest hrd]
      have hemp : (natDigits q.num.natAbs).isEmpty = false := by
        rw [hnd]; rfl
      rw [hemp]
      simp only [Bool.false_eq_true, reduceIte]
      rw [digitsVal_natDigits]
      have hq : -((q.num.natAbs : ℚ)) = q := by
        have hnum : q.num < 0 := Rat.num_neg.mpr hneg
        rw [Int.cast_natAbs]
        push_cast
        rw [abs_of_neg (show ((q.num : ℚ)) < 0 by exact_mod_cast hnum), neg_neg,
          Rat.coe_int_num_of_den_eq_one hden]
      rw [hq, if_neg hdot]
    · -- non-negative integer
      have hnc : numChars q = natDigits q.num.natAbs := by
        unfold numChars
        rw [if_neg hneg, if_pos hden]
        rfl
      rw [hnc, hnd]
      unfold parseNum
      have hnm : (decide (((d :: ds) ++ rest).take 1 = ['-'])) = false := by
        apply decide_eq_false
        simp only [List.cons_append, List.take_succ_cons, List.take_zero]
        intro hcon
        exact hspec.2.2.2.2.2.2.1 (by injection hcon)
      simp only [List.cons_append] at hnm ⊢
      rw [hnm]
      simp only [Bool.false_eq_true, reduceIte]
      rw [← List.cons_append, ← hnd,
        takeWhile_append_all _ _ (natDigits_all_digits _),
        takeWhile_nil_or_head rest hrd, List.append_nil,
        dropWhile_append_all _ _ (natDigits_all_digits _),
        dropWhile_nil_or_head rest hrd]
      have hemp : (natDigits q.num.natAbs).isEmpty = false := by
        rw [hnd]; rfl
      rw [hemp]
      simp only [Bool.false_eq_true, reduceIte]
      rw [digitsVal_natDigits]
      have hq : ((q.num.natAbs : ℚ)) = q := by
        have hnum : 0 ≤ q.num := Rat.num_nonneg.mpr (le_of_not_lt hneg)
        rw [Int.cast_natAbs]
        push_cast
        rw [abs_of_nonneg (show (0 : ℚ) ≤ (q.num : ℚ) by exact_mod_cast hnum),
          Rat.coe_int_num_of_den_eq_one hden]
      rw [hq, if_neg hdot]
  · -- decimal: q.den = 10 ^ K with K ≥ 1
    have hden : q.den = 10 ^ Nat.log 10 q.den := by
      have h := (Bool.and_eq_true_iff.mp hdk).1
      simpa using h
    have hk1 : 1 ≤ Nat.log 10 q.den := by
      have h := (Bool.and_eq_true_iff.mp hdk).2
      simpa using h
    have hdpos : 0 < q.den := q.pos
    have hfrac_lt : q.num.natAbs % q.den < 10 ^ Nat.log 10 q.den := by
      rw [← hden]
      exact Nat.mod_lt _ hdpos
    obtain ⟨hval, hlen, hempd⟩ :=
      padZeros_facts (Nat.log 10 q.den) (q.num.natAbs % q.den) hfrac_lt hk1
    obtain ⟨d, ds, hnd, hdig⟩ := natDigits_head (q.num.natAbs / q.den)
    have hspec := digit_ne_special d hdig
    have hdotdig : ('.' : Char).isDigit = false := by decide
    have hge10 : 10 ≤ q.den := by
      rw [hden]
      calc (10 : Nat) = 10 ^ 1 := by norm_num
        _ ≤ 10 ^ Nat.log 10 q.den := Nat.pow_le_pow_right (by norm_num) hk1
    have htw : (natDigits (q.num.natAbs / q.den) ++
        ('.' :: (padZeros (Nat.log 10 q.den) (natDigits (q.num.natAbs % q.den)) ++ rest))).takeWhile
          Char.isDigit = natDigits (q.num.natAbs / q.den) := by
      rw [takeWhile_append_all _ _ (natDigits_all_digits _), takeWhile_cons_false _ _ hdotdig,
        List.append_nil]
    have hdw : (natDigits (q.num.natAbs / q.den) ++
        ('.' :: (padZeros (Nat.log 10 q.den) (natDigits (q.num.natAbs % q.den)) ++ rest))).dropWhile
          Char.isDigit =
        '.' :: (padZeros (Nat.log 10 q.den) (natDigits (q.num.natAbs % q.den)) ++ rest) := by
      rw [dropWhile_append_all _ _ (natDigits_all_digits _), dropWhile_cons_false _ _ hdotdig]
    have htw2 : (padZeros (Nat.log 10 q.den) (natDigits (q.num.natAbs % q.den)) ++ rest).takeWhile
        Char.isDigit = padZeros (Nat.log 10 q.den) (natDigits (q.num.natAbs % q.den)) := by
      rw [takeWhile_append_all _ _ (padZeros_all_digits _ _), takeWhile_nil_or_head rest hrd,
        List.append_nil]
    have hdw2 : (padZeros (Nat.log 10 q.den) (natDigits (q.num.natAbs % q.den)) ++ rest).dropWhile
        Char.isDigit = rest := by
      rw [dropWhile_append_all _ _ (padZeros_all_digits _ _), dropWhile_nil_or_head rest hrd]
    have hemp : (natDigits (q.num.natAbs / q.den)).isEmpty = false := by
      rw [hnd]
      rfl
    have hkey : ((q.num.natAbs / q.den : Nat) : ℚ) +
        ((q.num.natAbs % q.den : Nat) : ℚ) / 10 ^ (Nat.log 10 q.den) =
        (q.num.natAbs : ℚ) / (q.den : ℚ) := by
      have hsplit : q.num.natAbs / q.den * q.den + q.num.natAbs % q.den = q.num.natAbs := by
        rw [Nat.mul_comm]
        exact Nat.div_add_mod _ _
      have h10 : ((q.den : ℚ)) = 10 ^ Nat.log 10 q.den := by exact_mod_cast hden
      have hdq : ((q.den : ℚ)) ≠ 0 := by
        exact_mod_cast hdpos.ne'
      rw [← h10]
      field_simp
      exact_mod_cast hsplit
    by_cases hneg : q < 0
    · have hnc : numChars q ++ rest = '-' :: (natDigits (q.num.natAbs / q.den) ++
          ('.' :: (padZeros (Nat.log 10 q.den) (natDigits (q.num.natAbs % q.den)) ++ rest))) := by
        unfold numChars
        rw [if_pos hneg, if_neg (by omega : ¬ q.den = 1)]
        simp [List.append_assoc]
      rw [hnc]
      unfold parseNum
      simp only [List.take_succ_cons, List.take_zero, List.drop_succ_cons,
        List.drop_zero, decide_True, if_true, if_pos rfl, reduceIte]
      rw [htw, hdw, hemp]
      simp only [Bool.false_eq_true, reduceIte, List.take_succ_cons, List.take_zero,
        List.drop_succ_cons, List.drop_zero, if_pos rfl]
      rw [htw2, hdw2, hempd]
      simp only [Bool.false_eq_true, reduceIte, decide_True, if_true]
      rw [digitsVal_natDigits, hval, hlen, hkey]
      have hq : -((q.num.natAbs : ℚ) / (q.den : ℚ)) = q := by
        have hnum : q.num < 0 := Rat.num_neg.mpr hneg
        rw [Int.cast_natAbs]
        push_cast
        rw [abs_of_neg (show ((q.num : ℚ)) < 0 by exact_mod_cast hnum)]
        rw [neg_div, neg_neg, Rat.num_div_den]
      rw [hq]
    · have hnc : numChars q ++ rest = (d :: ds) ++
          ('.' :: (padZeros (Nat.log 10 q.den) (natDigits (q.num.natAbs % q.den)) ++ rest)) := by
        unfold numChars
        rw [if_neg hneg, if_neg (by omega : ¬ q.den = 1), ← hnd]
        simp [List.append_assoc]
      rw [hnc]
      unfold parseNum
      have hnm : (decide (((d :: ds) ++
          ('.' :: (padZeros (Nat.log 10 q.den) (natDigits (q.num.natAbs % q.den)) ++
            rest))).take 1 = ['-'])) = false := by
        apply decide_eq_false
        simp only [List.cons_append, List.take_succ_cons, List.take_zero]
        intro hcon
        exact hspec.2.2.2.2.2.2.1 (by injection hcon)
      simp only [List.cons_append] at hnm ⊢
      rw [hnm]
      simp only [Bool.false_eq_true, reduceIte]
      rw [← List.cons_append, ← hnd, htw, hdw, hemp]
      simp only [Bool.false_eq_true, reduceIte, List.take_succ_cons, List.take_zero,
        List.drop_succ_cons, List.drop_zero, if_pos rfl]
      rw [htw2, hdw2, hempd]
      simp only [Bool.false_eq_true, reduceIte]
      rw [digitsVal_natDigits, hval, hlen, hkey]
      have hq : ((q.num.natAbs : ℚ) / (q.den : ℚ)) = q := by
        have hnum : 0 ≤ q.num := Rat.num_nonneg.mpr (le_of_not_lt hneg)
        rw [Int.cast_natAbs]
        push_cast
        rw [abs_of_nonneg (show (0 : ℚ) ≤ (q.num : ℚ) by exact_mod_cast hnum),
          Rat.num_div_den]
      rw [hq]

/-- `parseStrBody` inverts the printed string body for escape-free
strings. -/
theorem parseStrBody_print (s : String) (hs : safeString s = true) (rest : List Char) :
    parseStrBody (s.data ++ '"' :: rest) = some (s, rest) := by
  have hall : ∀ c ∈ s.data, (decide (c ≠ '"')) = true := by
    intro c hc
    have hsc := List.all_eq_true.mp hs c hc
    unfold safeChar at hsc
    simp only [Bool.and_eq_true, decide_eq_true_eq] at hsc
    simp [hsc.1.2]
  have hq : (decide (('"' : Char) ≠ '"')) = false := by decide
  unfold parseStrBody
  rw [dropWhile_append_all _ _ hall, dropWhile_cons_false _ _ hq,
    takeWhile_append_all _ _ hall, takeWhile_cons_false _ _ hq, List.append_nil]
  rfl

/-- The first character of a printed number is a sign or a digit. -/
theorem numChars_head (q : ℚ) :
    ∃ c cs, numChars q = c :: cs ∧ (c = '-' ∨ c.isDigit = true) := by
  unfold numChars
  by_cases hneg : q < 0
  · rw [if_pos hneg]
    by_cases hd : q.den = 1
    · rw [if_pos hd]
      exact ⟨'-', _, rfl, Or.inl rfl⟩
    · rw [if_neg hd]
      exact ⟨'-', _, rfl, Or.inl rfl⟩
  · rw [if_neg hneg]
    by_cases hd : q.den = 1
    · rw [if_pos hd]
      obtain ⟨c, cs, hnd, hdig⟩ := natDigits_head q.num.natAbs
      exact ⟨c, cs, by rw [List.nil_append, hnd], Or.inr hdig⟩
    · rw [if_neg hd]
      obtain ⟨c, cs, hnd, hdig⟩ := natDigits_head (q.num.natAbs / q.den)
      exact ⟨c, cs ++ '.' :: padZeros (Nat.log 10 q.den) (natDigits (q.num.natAbs % q.den)),
        by rw [List.nil_append, hnd, List.cons_append], Or.inr hdig⟩

/-- The first character of any printed JSON value, classified. -/
theorem printJson_head (ind : Nat) (v : Json) : ∃ c cs, printJson ind v = c :: cs ∧
    (c = 'n' ∨ c = 't' ∨ c = 'f' ∨ c = '"' ∨ c = '[' ∨ c = lbrace ∨ c = '-' ∨
      c.isDigit = true) := by
  cases v with
  | null => exact ⟨'n', _, rfl, by tauto⟩
  | bool b =>
    cases b
    · exact ⟨'f', _, rfl, by tauto⟩
    · exact ⟨'t', _, rfl, by tauto⟩
  | num q =>
    obtain ⟨c, cs, hq, hc⟩ := numChars_head q
    refine ⟨c, cs, ?_, by tauto⟩
    show numChars q = c :: cs
    exact hq
  | str s => exact ⟨'"', _, rfl, by tauto⟩
  | arr es =>
    cases es
    · exact ⟨'[', _, rfl, by tauto⟩
    · exact ⟨'[', _, rfl, by tauto⟩
  | obj fs =>
    cases fs
    · exact ⟨lbrace, _, rfl, by tauto⟩
    · exact ⟨lbrace, _, rfl, by tauto⟩

/-- A printed value's head character is not whitespace and not one of the
closing/separator characters. -/
theorem head_not_structural (c : Char)
    (h : c = 'n' ∨ c = 't' ∨ c = 'f' ∨ c = '"' ∨ c = '[' ∨ c = lbrace ∨ c = '-' ∨
      c.isDigit = true) :
    isWsChar c = false ∧ c ≠ ']' ∧ c ≠ ',' ∧ c ≠ rbrace ∧ c ≠ ':' := by
  rcases h with rfl | rfl | rfl | rfl | rfl | rfl | rfl | hd
  · exact ⟨by decide, by decide, by decide, by decide, by decide⟩
  · exact ⟨by decide, by decide, by decide, by decide, by decide⟩
  · exact ⟨by decide, by decide, by decide, by decide, by decide⟩
  · exact ⟨by decide, by decide, by decide, by decide, by decide⟩
  · exact ⟨by decide, by decide, by decide, by decide, by decide⟩
  · exact ⟨by decide, by decide, by decide, by decide, by decide⟩
  · exact ⟨by decide, by decide, by decide, by decide, by decide⟩
  · have hsp := digit_ne_special c hd
    exact ⟨hsp.2.2.2.2.2.2.2.2.2.2.2.2, hsp.2.2.2.2.2.2.2.2.1, hsp.2.2.2.2.2.2.2.2.2.1,
      hsp.2.2.2.2.2.2.2.2.2.2.1, hsp.2.2.2.2.2.2.2.2.2.2.2.1⟩

theorem parseJson_succ (fuel : Nat) (cs0 : List Char) :
    parseJson (fuel + 1) cs0 =
      (if (skipWs cs0).take 4 = ['n', 'u', 'l', 'l'] then
        some (.null, (skipWs cs0).drop 4)
      else if (skipWs cs0).take 4 = ['t', 'r', 'u', 'e'] then
        some (.bool true, (skipWs cs0).drop 4)
      else if (skipWs cs0).take 5 = ['f', 'a', 'l', 's', 'e'] then
        some (.bool false, (skipWs cs0).drop 5)
      else if (skipWs cs0).take 1 = ['"'] then
        (parseStrBody ((skipWs cs0).drop 1)).map fun p => (Json.str p.1, p.2)
      else if (skipWs cs0).take 1 = ['['] then
        if (skipWs ((skipWs cs0).drop 1)).take 1 = [']'] then
          some (.arr .nil, (skipWs ((skipWs cs0).drop 1)).drop 1)
        else (parseArrElems fuel ((skipWs cs0).drop 1)).map fun p => (Json.arr p.1, p.2)
      else if (skipWs cs0).take 1 = [lbrace] then
        if (skipWs ((skipWs cs0).drop 1)).take 1 = [rbrace] then
          some (.obj .nil, (skipWs ((skipWs cs0).drop 1)).drop 1)
        else (parseObjElems fuel ((skipWs cs0).drop 1)).map fun p => (Json.obj p.1, p.2)
      else (parseNum (skipWs cs0)).map fun p => (Json.num p.1, p.2)) := rfl

theorem parseArrElems_succ (fuel : Nat) (cs : List Char) :
    parseArrElems (fuel + 1) cs =
      (match parseJson fuel cs with
      | none => none
      | some (e, cs1) =>
        if (skipWs cs1).take 1 = [','] then
          match parseArrElems fuel ((skipWs cs1).drop 1) with
          | some (tl, rest) => some (JsonList.cons e tl, rest)
          | none => none
        else if (skipWs cs1).take 1 = [']'] then
          some (JsonList.cons e .nil, (skipWs cs1).drop 1)
        else none) := rfl

theorem parseObjElems_succ (fuel : Nat) (cs : List Char) :
    parseObjElems (fuel + 1) cs =
      (if (skipWs cs).take 1 = ['"'] then
        match parseStrBody ((skipWs cs).drop 1) with
        | none => none
        | some (k, cs2) =>
          if (skipWs cs2).take 1 = [':'] then
            match parseJson fuel ((skipWs cs2).drop 1) with
            | none => none
            | some (v, cs3) =>
              if (skipWs cs3).take 1 = [','] then
                match parseObjElems fuel ((skipWs cs3).drop 1) with
                | some (tl, rest) => some (JsonFields.cons k v tl, rest)
                | none => none
              else if (skipWs cs3).take 1 = [rbrace] then
                some (JsonFields.cons k v .nil, (skipWs cs3).drop 1)
              else none
          else none
      else none) := rfl

theorem take4_cons1 (a : Char) (l : List Char) :
    List.take 4 (a :: l) = a :: List.take 3 l := rfl

theorem take5_cons1 (a : Char) (l : List Char) :
    List.take 5 (a :: l) = a :: List.take 4 l := rfl

theorem take1_cons (a : Char) (l : List Char) : List.take 1 (a :: l) = [a] := rfl

theorem num_head_ne (c : Char) (h : c = '-' ∨ c.isDigit = true) :
    c ≠ 'n' ∧ c ≠ 't' ∧ c ≠ 'f' ∧ c ≠ '"' ∧ c ≠ '[' ∧ c ≠ lbrace := by
  rcases h with rfl | hd
  · exact ⟨by decide, by decide, by decide, by decide, by decide, by decide⟩
  · have hsp := digit_ne_special c hd
    exact ⟨hsp.1, hsp.2.1, hsp.2.2.1, hsp.2.2.2.1, hsp.2.2.2.2.1, hsp.2.2.2.2.2.1⟩

theorem followOk_cons (c : Char) (l : List Char) (h1 : c.isDigit = false) (h2 : c ≠ '.') :
    FollowOk (c :: l) := by
  intro x hx
  rw [take1_cons] at hx
  rcases List.mem_singleton.mp hx with rfl
  exact ⟨h1, h2⟩

theorem jsize_pos (v : Json) : 1 ≤ jsize v := by
  cases v <;> simp [jsize]

theorem drop1_cons (a : Char) (l : List Char) : List.drop 1 (a :: l) = l := rfl

theorem parse_print_all : ∀ fuel : Nat,
    (∀ (ind : Nat) (v : Json) (pre rest : List Char), wfJson v = true → jsize v ≤ fuel →
      AllWs pre → FollowOk rest →
      parseJson fuel (pre ++ (printJson ind v ++ rest)) = some (v, rest)) ∧
    (∀ (ind ind2 : Nat) (e : Json) (tl : JsonList) (pre rest : List Char),
      wfJson e = true → wfJsonList tl = true → jlistSize (.cons e tl) ≤ fuel → AllWs pre →
      parseArrElems fuel (pre ++ (printJson ind e ++ (printArrTail ind tl ++
        (nlInd ind2 ++ (']' :: rest))))) = some (.cons e tl, rest)) ∧
    (∀ (ind ind2 : Nat) (k : String) (v : Json) (tl : JsonFields) (pre rest : List Char),
      safeString k = true → wfJson v = true → wfJsonFields tl = true →
      jfieldsSize (.cons k v tl) ≤ fuel → AllWs pre →
      parseObjElems fuel (pre ++ ('"' :: (k.data ++ ('"' :: ':' :: ' ' ::
        (printJson ind v ++ (printObjTail ind tl ++
          (nlInd ind2 ++ (rbrace :: rest)))))))) = some (.cons k v tl, rest)) := by
  intro fuel
  induction fuel using Nat.strong_induction_on with
  | _ fuel IH =>
    match fuel with
    | 0 =>
      refine ⟨?_, ?_, ?_⟩
      · intro ind v pre rest _ hsz _ _
        exact absurd hsz (by have := jsize_pos v; omega)
      · intro ind ind2 e tl pre rest _ _ hsz _
        exact absurd hsz (by simp [jlistSize])
      · intro ind ind2 k v tl pre rest _ _ _ hsz _
        exact absurd hsz (by simp [jfieldsSize])
    | f + 1 =>
      obtain ⟨IH1, IH2, IH3⟩ := IH f (Nat.lt_succ_self f)
      refine ⟨?_, ?_, ?_⟩
      · -- values
        intro ind v pre rest hwf hsz hpre hfo
        cases v with
        | null =>
          have hskip : skipWs (pre ++ (printJson ind Json.null ++ rest)) =
              'n' :: 'u' :: 'l' :: 'l' :: rest := by
            rw [skipWs_append_ws _ _ hpre]
            rfl
          rw [parseJson_succ, hskip]
          rfl
        | bool b =>
          cases b with
          | true =>
            have hskip : skipWs (pre ++ (printJson ind (Json.bool true) ++ rest)) =
                't' :: 'r' :: 'u' :: 'e' :: rest := by
              rw [skipWs_append_ws _ _ hpre]
              rfl
            rw [parseJson_succ, hskip]
            rfl
          | false =>
            have hskip : skipWs (pre ++ (printJson ind (Json.bool false) ++ rest)) =
                'f' :: 'a' :: 'l' :: 's' :: 'e' :: rest := by
              rw [skipWs_append_ws _ _ hpre]
              rfl
            rw [parseJson_succ, hskip]
            rfl
        | str s =>
          have hskip : skipWs (pre ++ (printJson ind (Json.str s) ++ rest)) =
              '"' :: (s.data ++ ('"' :: rest)) := by
            rw [skipWs_append_ws _ _ hpre]
            show skipWs (('"' :: s.data ++ ['"']) ++ rest) = _
            rw [show ('"' :: s.data ++ ['"']) ++ rest = '"' :: (s.data ++ ('"' :: rest)) by
              simp [List.append_assoc]]
            rw [skipWs_cons_not _ _ (by decide)]
          rw [parseJson_succ, hskip]
          show (parseStrBody (s.data ++ '"' :: rest)).map (fun p => (Json.str p.1, p.2)) =
            some (Json.str s, rest)
          rw [parseStrBody_print s hwf rest]
          rfl
        | num q =>
          obtain ⟨c, cs, hpr, hcls⟩ := numChars_head q
          obtain ⟨hn, ht, hf2, hq2, hb, hlb⟩ := num_head_ne c hcls
          have hwsc : isWsChar c = false := by
            rcases hcls with rfl | hd
            · decide
            · exact (digit_ne_special c hd).2.2.2.2.2.2.2.2.2.2.2.2
          have hskip : skipWs (pre ++ (printJson ind (Json.num q) ++ rest)) =
              c :: (cs ++ rest) := by
            rw [skipWs_append_ws _ _ hpre]
            show skipWs (numChars q ++ rest) = _
            rw [hpr, List.cons_append, skipWs_cons_not _ _ hwsc]
          rw [parseJson_succ, hskip]
          rw [if_neg (by rw [take4_cons1]; intro hcon; injection hcon with h1 _; exact hn h1)]
          rw [if_neg (by rw [take4_cons1]; intro hcon; injection hcon with h1 _; exact ht h1)]
          rw [if_neg (by rw [take5_cons1]; intro hcon; injection hcon with h1 _; exact hf2 h1)]
          rw [if_neg (by rw [take1_cons]; intro hcon; injection hcon with h1 _; exact hq2 h1)]
          rw [if_neg (by rw [take1_cons]; intro hcon; injection hcon with h1 _; exact hb h1)]
          rw [if_neg (by rw [take1_cons]; intro hcon; injection hcon with h1 _; exact hlb h1)]
          rw [← List.cons_append, ← hpr, parseNum_print q hwf rest hfo]
          rfl
        | arr es =>
          cases es with
          | nil =>
            have hskip : skipWs (pre ++ (printJson ind (Json.arr .nil) ++ rest)) =
                '[' :: (']' :: rest) := by
              rw [skipWs_append_ws _ _ hpre]
              rfl
            rw [parseJson_succ, hskip]
            rfl
          | cons e tl =>
            obtain ⟨c2, cs2, hpr2, hcls2⟩ := printJson_head (ind + 2) e
            obtain ⟨hws2, hbr2, hcm2, hrb2, hcl2⟩ := head_not_structural c2 hcls2
            have hwf2 : wfJson e = true ∧ wfJsonList tl = true := by
              have h2 : (wfJson e && wfJsonList tl) = true := hwf
              exact Bool.and_eq_true_iff.mp h2
            have hsz2 : jlistSize (.cons e tl) ≤ f := by
              have : 1 + jlistSize (.cons e tl) ≤ f + 1 := hsz
              omega
            have hprint : printJson ind (Json.arr (.cons e tl)) ++ rest =
                '[' :: (nlInd (ind + 2) ++ (printJson (ind + 2) e ++
                  (printArrTail (ind + 2) tl ++ (nlInd ind ++ (']' :: rest))))) := by
              show ('[' :: (nlInd (ind + 2) ++ printJson (ind + 2) e ++
                printArrTail (ind + 2) tl ++ nlInd ind ++ [']'])) ++ rest = _
              simp [List.append_assoc]
            have hskip : skipWs (pre ++ (printJson ind (Json.arr (.cons e tl)) ++ rest)) =
                '[' :: (nlInd (ind + 2) ++ (printJson (ind + 2) e ++
                  (printArrTail (ind + 2) tl ++ (nlInd ind ++ (']' :: rest))))) := by
              rw [skipWs_append_ws _ _ hpre, hprint, skipWs_cons_not _ _ (by decide)]
            have hskip2 : skipWs (nlInd (ind + 2) ++ (printJson (ind + 2) e ++
                (printArrTail (ind + 2) tl ++ (nlInd ind ++ (']' :: rest))))) =
                c2 :: (cs2 ++ (printArrTail (ind + 2) tl ++ (nlInd ind ++ (']' :: rest)))) := by
              rw [skipWs_append_ws _ _ (nlInd_all_ws _), hpr2, List.cons_append,
                skipWs_cons_not _ _ hws2]
            rw [parseJson_succ, hskip]
            rw [if_neg (by rw [take4_cons1]
                           intro hcon
                           injection hcon with h1 _
                           exact absurd h1 (by decide))]
            rw [if_neg (by rw [take4_cons1]
                           intro hcon
                           injection hcon with h1 _
                           exact absurd h1 (by decide))]
            rw [if_neg (by rw [take5_cons1]
                           intro hcon
                           injection hcon with h1 _
                           exact absurd h1 (by decide))]
            rw [if_neg (by rw [take1_cons]
                           intro hcon
                           injection hcon with h1 _
                           exact absurd h1 (by decide))]
            rw [if_pos (by rw [take1_cons])]
            rw [drop1_cons, hskip2]
            rw [if_neg (by rw [take1_cons]
                           intro hcon
                           injection hcon with h1 _
                           exact hbr2 h1)]
            rw [IH2 (ind + 2) ind e tl (nlInd (ind + 2)) rest hwf2.1 hwf2.2 hsz2
              (nlInd_all_ws _)]
            rfl
        | obj fs =>
          cases fs with
          | nil =>
            have hskip : skipWs (pre ++ (printJson ind (Json.obj .nil) ++ rest)) =
                lbrace :: (rbrace :: rest) := by
              rw [skipWs_append_ws _ _ hpre]
              rfl
            rw [parseJson_succ, hskip]
            rfl
          | cons k v tl =>
            have hwf2 : safeString k = true ∧ wfJson v = true ∧ wfJsonFields tl = true := by
              have h2 : (safeString k && wfJson v && wfJsonFields tl) = true := hwf
              have h3 := Bool.and_eq_true_iff.mp h2
              exact ⟨(Bool.and_eq_true_iff.mp h3.1).1, (Bool.and_eq_true_iff.mp h3.1).2, h3.2⟩
            have hsz2 : jfieldsSize (.cons k v tl) ≤ f := by
              have : 1 + jfieldsSize (.cons k v tl) ≤ f + 1 := hsz
              omega
            have hprint : printJson ind (Json.obj (.cons k v tl)) ++ rest =
                lbrace :: (nlInd (ind + 2) ++ ('"' :: (k.data ++ ('"' :: ':' :: ' ' ::
                  (printJson (ind + 2) v ++ (printObjTail (ind + 2) tl ++
                    (nlInd ind ++ (rbrace :: rest)))))))) := by
              show (lbrace :: (nlInd (ind + 2) ++ ('"' :: k.data ++ ['"', ':', ' ']) ++
                printJson (ind + 2) v ++ printObjTail (ind + 2) tl ++ nlInd ind ++
                  [rbrace])) ++ rest = _
              simp [List.append_assoc]
            have hskip : skipWs (pre ++ (printJson ind (Json.obj (.cons k v tl)) ++ rest)) =
                lbrace :: (nlInd (ind + 2) ++ ('"' :: (k.data ++ ('"' :: ':' :: ' ' ::
                  (printJson (ind + 2) v ++ (printObjTail (ind + 2) tl ++
                    (nlInd ind ++ (rbrace :: rest)))))))) := by
              rw [skipWs_append_ws _ _ hpre, hprint, skipWs_cons_not _ _ (by decide)]
            have hskip2 : skipWs (nlInd (ind + 2) ++ ('"' :: (k.data ++ ('"' :: ':' :: ' ' ::
                (printJson (ind + 2) v ++ (printObjTail (ind + 2) tl ++
                  (nlInd ind ++ (rbrace :: rest)))))))) =
                '"' :: (k.data ++ ('"' :: ':' :: ' ' ::
                  (printJson (ind + 2) v ++ (printObjTail (ind + 2) tl ++
                    (nlInd ind ++ (rbrace :: rest)))))) := by
              rw [skipWs_append_ws _ _ (nlInd_all_ws _), skipWs_cons_not _ _ (by decide)]
            rw [parseJson_succ, hskip]
            rw [if_neg (by rw [take4_cons1]
                           intro hcon
                           injection hcon with h1 _
                           exact absurd h1 (by decide))]
            rw [if_neg (by rw [take4_cons1]
                           intro hcon
                           injection hcon with h1 _
                           exact absurd h1 (by decide))]
            rw [if_neg (by rw [take5_cons1]
                           intro hcon
                           injection hcon with h1 _
                           exact absurd h1 (by decide))]
            rw [if_neg (by rw [take1_cons]
                           intro hcon
                           injection hcon with h1 _
                           exact absurd h1 (by decide))]
            rw [if_neg (by rw [take1_cons]
                           intro hcon
                           injection hcon with h1 _
                           exact absurd h1 (by decide))]
            rw [if_pos (by rw [take1_cons])]
            rw [drop1_cons, hskip2]
            rw [if_neg (by rw [take1_cons]
                           intro hcon
                           injection hcon with h1 _
                           exact absurd h1 (by decide))]
            rw [IH3 (ind + 2) ind k v tl (nlInd (ind + 2)) rest hwf2.1 hwf2.2.1 hwf2.2.2
              hsz2 (nlInd_all_ws _)]
            rfl
      · -- array element lists
        intro ind ind2 e tl pre rest hwfe hwftl hsz hpre
        have hsze : jsize e ≤ f := by
          have h2 : 1 + jsize e + jlistSize tl ≤ f + 1 := hsz
          omega
        have hfo1 : FollowOk (printArrTail ind tl ++ (nlInd ind2 ++ (']' :: rest))) := by
          cases tl with
          | nil => exact followOk_cons '\n' _ (by decide) (by decide)
          | cons e2 tl2 => exact followOk_cons ',' _ (by decide) (by decide)
        rw [parseArrElems_succ, IH1 ind e pre _ hwfe hsze hpre hfo1]
        cases tl with
        | nil =>
          have hsk : skipWs (printArrTail ind JsonList.nil ++ (nlInd ind2 ++ (']' :: rest))) =
              ']' :: rest := by
            show skipWs (([] : List Char) ++ (nlInd ind2 ++ (']' :: rest))) = _
            rw [List.nil_append, skipWs_append_ws _ _ (nlInd_all_ws _),
              skipWs_cons_not _ _ (by decide)]
          dsimp only
          rw [hsk]
          rfl
        | cons e2 tl2 =>
          have hwf2 : wfJson e2 = true ∧ wfJsonList tl2 = true := by
            have h2 : (wfJson e2 && wfJsonList tl2) = true := hwftl
            exact Bool.and_eq_true_iff.mp h2
          have hsz3 : jlistSize (.cons e2 tl2) ≤ f := by
            have h2 : 1 + jsize e + (1 + jsize e2 + jlistSize tl2) ≤ f + 1 := hsz
            have h3 : 1 ≤ jsize e := jsize_pos e
            show 1 + jsize e2 + jlistSize tl2 ≤ f
            omega
          have hsk : skipWs (printArrTail ind (JsonList.cons e2 tl2) ++
              (nlInd ind2 ++ (']' :: rest))) =
              ',' :: ((nlInd ind ++ printJson ind e2 ++ printArrTail ind tl2) ++
                (nlInd ind2 ++ (']' :: rest))) := by
            show skipWs ((',' :: (nlInd ind ++ printJson ind e2 ++ printArrTail ind tl2)) ++
              (nlInd ind2 ++ (']' :: rest))) = _
            rw [List.cons_append, skipWs_cons_not _ _ (by decide)]
          have hassoc : (nlInd ind ++ printJson ind e2 ++ printArrTail ind tl2) ++
              (nlInd ind2 ++ (']' :: rest)) =
              nlInd ind ++ (printJson ind e2 ++ (printArrTail ind tl2 ++
                (nlInd ind2 ++ (']' :: rest)))) := by
            simp [List.append_assoc]
          dsimp only
          rw [hsk, drop1_cons, hassoc,
            IH2 ind ind2 e2 tl2 (nlInd ind) rest hwf2.1 hwf2.2 hsz3 (nlInd_all_ws _)]
          rfl
      · -- object member lists
        intro ind ind2 k v tl pre rest hk hwfv hwftl hsz hpre
        have hszv : jsize v ≤ f := by
          have h2 : 1 + jsize v + jfieldsSize tl ≤ f + 1 := hsz
          omega
        have hws1 : AllWs [' '] := by
          intro c hc
          rcases List.mem_singleton.mp hc with rfl
          rfl
        have hfo2 : FollowOk (printObjTail ind tl ++ (nlInd ind2 ++ (rbrace :: rest))) := by
          cases tl with
          | nil => exact followOk_cons '\n' _ (by decide) (by decide)
          | cons k2 v2 tl2 => exact followOk_cons ',' _ (by decide) (by decide)
        have hsk0 : skipWs (pre ++ ('"' :: (k.data ++ ('"' :: ':' :: ' ' ::
            (printJson ind v ++ (printObjTail ind tl ++
              (nlInd ind2 ++ (rbrace :: rest)))))))) =
            '"' :: (k.data ++ ('"' :: ':' :: ' ' ::
              (printJson ind v ++ (printObjTail ind tl ++
                (nlInd ind2 ++ (rbrace :: rest)))))) := by
          rw [skipWs_append_ws _ _ hpre, skipWs_cons_not _ _ (by decide)]
        rw [parseObjElems_succ, hsk0]
        rw [if_pos (by rw [take1_cons])]
        rw [drop1_cons, parseStrBody_print k hk]
        have hsk1 : skipWs (':' :: ' ' ::
            (printJson ind v ++ (printObjTail ind tl ++
              (nlInd ind2 ++ (rbrace :: rest))))) =
            ':' :: ' ' :: (printJson ind v ++ (printObjTail ind tl ++
              (nlInd ind2 ++ (rbrace :: rest)))) := by
          rw [skipWs_cons_not _ _ (by decide)]
        have hIH1 : parseJson f (' ' :: (printJson ind v ++ (printObjTail ind tl ++
            (nlInd ind2 ++ (rbrace :: rest))))) =
            some (v, printObjTail ind tl ++ (nlInd ind2 ++ (rbrace :: rest))) :=
          IH1 ind v [' '] _ hwfv hszv hws1 hfo2
        dsimp only
        rw [hsk1]
        rw [if_pos (by rw [take1_cons])]
        rw [drop1_cons, hIH1]
        cases tl with
        | nil =>
          have hsk2 : skipWs (printObjTail ind JsonFields.nil ++
              (nlInd ind2 ++ (rbrace :: rest))) = rbrace :: rest := by
            show skipWs (([] : List Char) ++ (nlInd ind2 ++ (rbrace :: rest))) = _
            rw [List.nil_append, skipWs_append_ws _ _ (nlInd_all_ws _),
              skipWs_cons_not _ _ (by decide)]
          dsimp only
          rw [hsk2]
          rfl
        | cons k2 v2 tl2 =>
          have hwf3 : safeString k2 = true ∧ wfJson v2 = true ∧ wfJsonFields tl2 = true := by
            have h2 : (safeString k2 && wfJson v2 && wfJsonFields tl2) = true := hwftl
            have h3 := Bool.and_eq_true_iff.mp h2
            exact ⟨(Bool.and_eq_true_iff.mp h3.1).1, (Bool.and_eq_true_iff.mp h3.1).2, h3.2⟩
          have hsz3 : jfieldsSize (.cons k2 v2 tl2) ≤ f := by
            have h2 : 1 + jsize v + (1 + jsize v2 + jfieldsSize tl2) ≤ f + 1 := hsz
            have h3 : 1 ≤ jsize v := jsize_pos v
            show 1 + jsize v2 + jfieldsSize tl2 ≤ f
            omega
          have hsk2 : skipWs (printObjTail ind (JsonFields.cons k2 v2 tl2) ++
              (nlInd ind2 ++ (rbrace :: rest))) =
              ',' :: ((nlInd ind ++ ('"' :: k2.data ++ ['"', ':', ' ']) ++
                printJson ind v2 ++ printObjTail ind tl2) ++
                  (nlInd ind2 ++ (rbrace :: rest))) := by
            show skipWs ((',' :: (nlInd ind ++ ('"' :: k2.data ++ ['"', ':', ' ']) ++
              printJson ind v2 ++ printObjTail ind tl2)) ++
                (nlInd ind2 ++ (rbrace :: rest))) = _
            rw [List.cons_append, skipWs_cons_not _ _ (by decide)]
          have hassoc : (nlInd ind ++ ('"' :: k2.data ++ ['"', ':', ' ']) ++
              printJson ind v2 ++ printObjTail ind tl2) ++
                (nlInd ind2 ++ (rbrace :: rest)) =
              nlInd ind ++ ('"' :: (k2.data ++ ('"' :: ':' :: ' ' ::
                (printJson ind v2 ++ (printObjTail ind tl2 ++
                  (nlInd ind2 ++ (rbrace :: rest))))))) := by
            simp [List.append_assoc]
          dsimp only
          rw [hsk2, drop1_cons, hassoc,
            IH3 ind ind2 k2 v2 tl2 (nlInd ind) rest hwf3.1 hwf3.2.1 hwf3.2.2 hsz3
              (nlInd_all_ws _)]
          rfl

/-! ## Fuel adequacy: the printed length bounds the structural size -/

mutual
theorem jsize_le_printLen : ∀ (ind : Nat) (v : Json), jsize v ≤ (printJson ind v).length
  | _, .null => by simp [jsize, printJson]
  | _, .bool b => by cases b <;> simp [jsize, printJson]
  | _, .num q => by
      obtain ⟨c, cs, heq, _⟩ := numChars_head q
      show 1 ≤ (numChars q).length
      rw [heq]
      simp
  | _, .str s => by simp [jsize, printJson]
  | _, .arr .nil => by simp [jsize, jlistSize, printJson]
  | ind, .arr (.cons e tl) => by
      have h1 := jsize_le_printLen (ind + 2) e
      have h2 := jlistSize_le_tailLen (ind + 2) tl
      simp only [jsize, jlistSize, printJson, nlInd, List.length_cons, List.length_append,
        List.length_replicate]
      omega
  | _, .obj .nil => by simp [jsize, jfieldsSize, printJson]
  | ind, .obj (.cons k v tl) => by
      have h1 := jsize_le_printLen (ind + 2) v
      have h2 := jfieldsSize_le_tailLen (ind + 2) tl
      simp only [jsize, jfieldsSize, printJson, nlInd, List.length_cons, List.length_append,
        List.length_replicate]
      omega
theorem jlistSize_le_tailLen : ∀ (ind : Nat) (tl : JsonList),
    jlistSize tl ≤ (printArrTail ind tl).length
  | _, .nil => by simp [jlistSize, printArrTail]
  | ind, .cons e tl => by
      have h1 := jsize_le_printLen ind e
      have h2 := jlistSize_le_tailLen ind tl
      simp only [jlistSize, printArrTail, nlInd, List.length_cons, List.length_append,
        List.length_replicate]
      omega
theorem jfieldsSize_le_tailLen : ∀ (ind : Nat) (tl : JsonFields),
    jfieldsSize tl ≤ (printObjTail ind tl).length
  | _, .nil => by simp [jfieldsSize, printObjTail]
  | ind, .cons k v tl => by
      have h1 := jsize_le_printLen ind v
      have h2 := jfieldsSize_le_tailLen ind tl
      simp only [jfieldsSize, printObjTail, nlInd, List.length_cons, List.length_append,
        List.length_replicate]
      omega
end

theorem allWs_nil : AllWs ([] : List Char) := by
  intro c hc
  exact absurd hc (by simp)

theorem followOk_nil : FollowOk ([] : List Char) := by
  intro c hc
  exact absurd hc (by simp)

/-- Top-level round trip: `JSON.parse` inverts `JSON.stringify(·, null, 2)`
on every serialization-friendly value. -/
theorem parseJsonTop_stringify2 (v : Json) (hwf : wfJson v = true) :
    parseJsonTop (stringify2 v) = some v := by
  have hsz : jsize v ≤ (printJson 0 v).length + 1 :=
    Nat.le_succ_of_le (jsize_le_printLen 0 v)
  have h := (parse_print_all ((printJson 0 v).length + 1)).1 0 v [] [] hwf hsz
    allWs_nil followOk_nil
  rw [List.nil_append, List.append_nil] at h
  unfold parseJsonTop
  have hd : (stringify2 v).data = printJson 0 v := rfl
  rw [hd, h]
  rfl

/-- C4 (counterexample to the claim as stated).  The format `'structured'`
the spec names is not one of the formats `exportAnalysisData` supports
(`'json'`, `'csv'`, `'summary'`): on a report-shaped value it throws
`不支持的导出格式: structured` instead of succeeding. -/
theorem export_structured_rejected :
    exportAnalysisData sampleReport "structured" =
      .error "不支持的导出格式: structured" := rfl

/-- C4 (amended).  The lossless full serialization is the `'json'` format
(not `'structured'`): for every serialization-friendly report value,
`exportAnalysisData(report, 'json')` succeeds with
`JSON.stringify(report, null, 2)`, and parsing that output back yields a
value equal to the original report — a lossless round trip. -/
theorem exportAnalysisData_json_roundtrip (report : Json)
    (hwf : wfJson report = true) :
    exportAnalysisData report "json" = .ok (stringify2 report) ∧
      parseJsonTop (stringify2 report) = some report :=
  ⟨rfl, parseJsonTop_stringify2 report hwf⟩

/-- Witness: the round trip at the concrete report-shaped value. -/
theorem exportAnalysisData_json_roundtrip_witness :
    exportAnalysisData sampleReport "json" = .ok (stringify2 sampleReport) ∧
      parseJsonTop (stringify2 sampleReport) = some sampleReport :=
  exportAnalysisData_json_roundtrip sampleReport (by with_unfolding_all decide)
